import Mathlib

/-!
# YUGA engine: skeletal animation sampling, blending and playback

A shallow embedding of `engine-core/src/Animation/AnimationController.cpp`,
`engine-core/src/Math/Quaternion.cpp`, `engine-core/include/Math/Vector3.h` and
`engine-core/include/Math/MathUtils.h`.

Number model.  A C++ `float` is embedded as an exact rational (`ℚ`): every
finite float is a rational, `+ - * /` and the comparisons are the exact ones,
and rounding, infinities and NaN are not modelled.  Division by zero is the
total division of `ℚ` (`x / 0 = 0`).  The functions of the C maths library the
code calls (`std::sin`, `std::acos`, `std::sqrt`) are not part of the
repository; they are taken as a parameter `Libm`, and a theorem that depends
on what they return says so in a hypothesis.  The literal `0.9995f` is taken
as the decimal `9995 / 10000`.

Containers.  `std::vector` is a `List`; `std::unordered_map<std::string, T>`
is an association list read with `List.lookup`; `std::string` is `String`.
`clips.at(name)` throws on a missing key: the functions that call it return
an `Option`, `none` standing for the exception.
-/

namespace YUGA

/-! ## Math/MathUtils.h -/

/-- The three functions of the C maths library used by the animation code. -/
structure Libm where
  sin : ℚ → ℚ
  acos : ℚ → ℚ
  sqrt : ℚ → ℚ

namespace Math

/-- `std::min(a, b)`: `(b < a) ? b : a`. -/
def Min (a b : ℚ) : ℚ := if b < a then b else a

/-- `std::max(a, b)`: `(a < b) ? b : a`. -/
def Max (a b : ℚ) : ℚ := if a < b then b else a

/-- `Math::Clamp(value, min, max)`: `std::max(min, std::min(value, max))`. -/
def Clamp (value min max : ℚ) : ℚ := Max min (Min value max)

end Math

/-! ## Math/Vector3.h -/

structure Vector3 where
  x : ℚ
  y : ℚ
  z : ℚ
  deriving DecidableEq, Repr

namespace Vector3

def add (a b : Vector3) : Vector3 := ⟨a.x + b.x, a.y + b.y, a.z + b.z⟩

def sub (a b : Vector3) : Vector3 := ⟨a.x - b.x, a.y - b.y, a.z - b.z⟩

def mulScalar (a : Vector3) (scalar : ℚ) : Vector3 :=
  ⟨a.x * scalar, a.y * scalar, a.z * scalar⟩

instance : Add Vector3 := ⟨add⟩

instance : Sub Vector3 := ⟨sub⟩

instance : HMul Vector3 ℚ Vector3 := ⟨mulScalar⟩

/-- `Vector3::Lerp(a, b, t)`: `a + (b - a) * t`. -/
def Lerp (a b : Vector3) (t : ℚ) : Vector3 := a + (b - a) * t

def Zero : Vector3 := ⟨0, 0, 0⟩

def One : Vector3 := ⟨1, 1, 1⟩

end Vector3

/-! ## Math/Quaternion.h, Math/Quaternion.cpp -/

structure Quaternion where
  x : ℚ
  y : ℚ
  z : ℚ
  w : ℚ
  deriving DecidableEq, Repr

namespace Quaternion

def Identity : Quaternion := ⟨0, 0, 0, 1⟩

/-- `Quaternion::operator*(float scalar)`. -/
def mulScalar (q : Quaternion) (scalar : ℚ) : Quaternion :=
  ⟨q.x * scalar, q.y * scalar, q.z * scalar, q.w * scalar⟩

def LengthSquared (q : Quaternion) : ℚ := q.x * q.x + q.y * q.y + q.z * q.z + q.w * q.w

def Length (m : Libm) (q : Quaternion) : ℚ :=
  m.sqrt (q.x * q.x + q.y * q.y + q.z * q.z + q.w * q.w)

/-- `Quaternion::Normalize()`, returning the updated quaternion. -/
def Normalize (m : Libm) (q : Quaternion) : Quaternion :=
  let len := Length m q
  if len > 0 then
    let invLen := 1 / len
    ⟨q.x * invLen, q.y * invLen, q.z * invLen, q.w * invLen⟩
  else q

def Dot (a b : Quaternion) : ℚ := a.x * b.x + a.y * b.y + a.z * b.z + a.w * b.w

/-- `Quaternion::Lerp(a, b, t)`. -/
def Lerp (a b : Quaternion) (t : ℚ) : Quaternion :=
  ⟨a.x + (b.x - a.x) * t, a.y + (b.y - a.y) * t, a.z + (b.z - a.z) * t, a.w + (b.w - a.w) * t⟩

/-- `Quaternion::Slerp(a, b, t)`. -/
def Slerp (m : Libm) (a b : Quaternion) (t : ℚ) : Quaternion :=
  let dot0 := Dot a b
  -- Ensure shortest path
  let b2 := if dot0 < 0 then mulScalar b (-1) else b
  let dot := if dot0 < 0 then -dot0 else dot0
  if dot > 9995 / 10000 then
    -- Linear interpolation for very close quaternions
    Normalize m (Lerp a b2 t)
  else
    let theta := m.acos dot
    let sinTheta := m.sin theta
    let wa := m.sin ((1 - t) * theta) / sinTheta
    let wb := m.sin (t * theta) / sinTheta
    ⟨wa * a.x + wb * b2.x, wa * a.y + wb * b2.y, wa * a.z + wb * b2.z, wa * a.w + wb * b2.w⟩

/-- The interpolation of the spec's shortest-arc rule ("negate one quaternion
if the dot product of the two is negative, before interpolating"), on a pair
of end points taken as it is, with no sign step: with `dot` the dot product
of the pair, the normalised `Lerp` of the pair when `dot > 0.9995`, and
otherwise the sum of the two end points weighted by
`sin((1 - t) * theta) / sin(theta)` and `sin(t * theta) / sin(theta)`, where
`theta = acos(dot)` (the formulas of `Quaternion.cpp`, lines 144 to 161).
`Slerp` is compared with it. -/
def interpolatePair (m : Libm) (a b : Quaternion) (t : ℚ) : Quaternion :=
  if Dot a b > 9995 / 10000 then Normalize m (Lerp a b t)
  else
    ⟨m.sin ((1 - t) * m.acos (Dot a b)) / m.sin (m.acos (Dot a b)) * a.x
        + m.sin (t * m.acos (Dot a b)) / m.sin (m.acos (Dot a b)) * b.x,
      m.sin ((1 - t) * m.acos (Dot a b)) / m.sin (m.acos (Dot a b)) * a.y
        + m.sin (t * m.acos (Dot a b)) / m.sin (m.acos (Dot a b)) * b.y,
      m.sin ((1 - t) * m.acos (Dot a b)) / m.sin (m.acos (Dot a b)) * a.z
        + m.sin (t * m.acos (Dot a b)) / m.sin (m.acos (Dot a b)) * b.z,
      m.sin ((1 - t) * m.acos (Dot a b)) / m.sin (m.acos (Dot a b)) * a.w
        + m.sin (t * m.acos (Dot a b)) / m.sin (m.acos (Dot a b)) * b.w⟩

end Quaternion

/-! ## Animation/AnimationController.h: data -/

structure Vector2 where
  x : ℚ
  y : ℚ
  deriving DecidableEq, Repr

structure Bone where
  name : String
  parentIndex : Int
  position : Vector3
  rotation : Quaternion
  scale : Vector3
  deriving DecidableEq, Repr

structure AnimationKeyframe where
  time : ℚ
  position : Vector3
  rotation : Quaternion
  scale : Vector3
  deriving DecidableEq, Repr

/-- The default constructor `AnimationKeyframe()`. -/
instance : Inhabited AnimationKeyframe :=
  ⟨⟨0, Vector3.Zero, Quaternion.Identity, Vector3.One⟩⟩

structure BoneAnimation where
  boneIndex : Int
  keyframes : List AnimationKeyframe
  deriving DecidableEq, Repr

structure AnimationClip where
  name : String
  duration : ℚ
  looping : Bool
  boneAnimations : List BoneAnimation
  deriving DecidableEq, Repr

inductive AnimationState where
  | Idle
  | Playing
  | Paused
  | Stopped
  deriving DecidableEq, Repr

structure AnimationTransition where
  fromState : String
  toState : String
  condition : String
  blendTime : ℚ
  deriving DecidableEq, Repr

structure AnimationStateMachine where
  currentState : String
  stateToClip : List (String × String)
  transitions : List AnimationTransition
  boolParameters : List (String × Bool)
  floatParameters : List (String × ℚ)
  deriving DecidableEq, Repr

structure BlendNode where
  clipName : String
  weight : ℚ
  position : Vector2
  deriving DecidableEq, Repr

structure BlendTree where
  nodes : List BlendNode
  blendParameter : Vector2
  deriving DecidableEq, Repr

structure AnimationEvent where
  clipName : String
  time : ℚ
  eventName : String
  triggered : Bool
  deriving DecidableEq, Repr

/-- The private state of `class AnimationController`.  The function pointer
`eventCallback` is embedded by whether it is non-null (`eventCallback`) and by
the sequence of event names it has been called with (`callbackLog`). -/
structure AnimationController where
  skeleton : List Bone
  clips : List (String × AnimationClip)
  currentClipName : String
  state : AnimationState
  currentTime : ℚ
  playbackSpeed : ℚ
  looping : Bool
  nextClipName : String
  blendTime : ℚ
  blendDuration : ℚ
  stateMachine : AnimationStateMachine
  blendTree : BlendTree
  useStateMachine : Bool
  useBlendTree : Bool
  events : List AnimationEvent
  eventCallback : Bool
  callbackLog : List String
  deriving DecidableEq, Repr

/-- The three output vectors of `SampleClip` and `GetBoneTransforms`. -/
structure BoneTransforms where
  positions : List Vector3
  rotations : List Quaternion
  scales : List Vector3
  deriving DecidableEq, Repr

/-- The default constructor `Vector3()`. -/
instance : Inhabited Vector3 := ⟨⟨0, 0, 0⟩⟩

/-- The default constructor `Quaternion()`. -/
instance : Inhabited Quaternion := ⟨⟨0, 0, 0, 1⟩⟩

namespace BoneTransforms

/-- The pose the three vectors hold for bone `i`: `(positions[i], rotations[i],
scales[i])`, and `none` when `i` is not an index of all three. -/
def read (o : BoneTransforms) (i : Nat) : Option (Vector3 × Quaternion × Vector3) :=
  match o.positions[i]?, o.rotations[i]?, o.scales[i]? with
  | some p, some r, some s => some (p, r, s)
  | _, _, _ => none

/-- All three vectors have `n` elements. -/
def HasSize (o : BoneTransforms) (n : Nat) : Prop :=
  o.positions.length = n ∧ o.rotations.length = n ∧ o.scales.length = n

end BoneTransforms

/-- A rational stand-in for the C maths library, exact at the points the
proofs evaluate: `sin x` as `x`, `acos d` as `11/7 - d`, `sqrt x` as
`(1 + x) / 2`.  It is used to evaluate the code on concrete inputs. -/
def Libm.approx : Libm := ⟨fun x => x, fun d => 11 / 7 - d, fun x => (1 + x) / 2⟩

/-! ## Animation/AnimationController.cpp: the controller -/

namespace AnimationController

/-- The constructor `AnimationController::AnimationController()`; the members
without an initialiser are default-constructed (empty). -/
def new : AnimationController :=
  { skeleton := []
    clips := []
    currentClipName := ""
    state := AnimationState.Stopped
    currentTime := 0
    playbackSpeed := 1
    looping := true
    nextClipName := ""
    blendTime := 0
    blendDuration := 0
    stateMachine := ⟨"", [], [], [], []⟩
    blendTree := ⟨[], ⟨0, 0⟩⟩
    useStateMachine := false
    useBlendTree := false
    events := []
    eventCallback := false
    callbackLog := [] }

/-- `AddClip(name, clip)`: `clips[name] = clip`. -/
def AddClip (c : AnimationController) (name : String) (clip : AnimationClip) :
    AnimationController :=
  { c with clips := (name, clip) :: c.clips.filter (fun p => p.1 != name) }

/-- `RemoveClip(name)`: `clips.erase(name)`. -/
def RemoveClip (c : AnimationController) (name : String) : AnimationController :=
  { c with clips := c.clips.filter (fun p => p.1 != name) }

/-- `HasClip(name)`: `clips.find(name) != clips.end()`. -/
def HasClip (c : AnimationController) (name : String) : Bool :=
  (c.clips.lookup name).isSome

/-- `SetSkeleton(bones)`. -/
def SetSkeleton (c : AnimationController) (bones : List Bone) : AnimationController :=
  { c with skeleton := bones }

/-- `Play(clipName, fadeTime)`. -/
def Play (c : AnimationController) (clipName : String) (fadeTime : ℚ) : AnimationController :=
  if ¬ HasClip c clipName then c
  else if fadeTime > 0 ∧ c.state = AnimationState.Playing then
    -- Start blending to new animation
    { c with nextClipName := clipName, blendTime := 0, blendDuration := fadeTime }
  else
    -- Immediate switch
    { c with
      currentClipName := clipName
      currentTime := 0
      state := AnimationState.Playing
      nextClipName := ""
      blendTime := 0 }

/-- `CrossFade(clipName, fadeTime)`. -/
def CrossFade (c : AnimationController) (clipName : String) (fadeTime : ℚ) :
    AnimationController :=
  Play c clipName fadeTime

/-- The keyframe search loop of `SampleClip`, entered at index `i` with the
keyframes from `i` on still to visit: the first index whose time is greater
than `time`, and `0` (the initial value of `nextIndex`) when the loop ends
without a hit. -/
def findNextIndexFrom (time : ℚ) : List AnimationKeyframe → Nat → Nat
  | [], _ => 0
  | k :: rest, i => if k.time > time then i else findNextIndexFrom time rest (i + 1)

/-- The value of `nextIndex` after the search loop of `SampleClip`. -/
def findNextIndex (keyframes : List AnimationKeyframe) (time : ℚ) : Nat :=
  findNextIndexFrom time keyframes 0

/-- The three assignments `positions[b] = p; rotations[b] = r; scales[b] = s`. -/
def writeBone (out : BoneTransforms) (b : Nat) (p : Vector3) (r : Quaternion) (s : Vector3) :
    BoneTransforms :=
  ⟨out.positions.set b p, out.rotations.set b r, out.scales.set b s⟩

/-- One iteration of the loop `for (const auto& boneAnim : clip.boneAnimations)`
of `SampleClip`, for a skeleton of `skeletonSize` bones. -/
def sampleBoneAnimation (m : Libm) (skeletonSize : Nat) (time : ℚ) (out : BoneTransforms)
    (boneAnim : BoneAnimation) : BoneTransforms :=
  if boneAnim.boneIndex < 0 ∨ boneAnim.boneIndex ≥ (skeletonSize : Int) then out
  else if boneAnim.keyframes.isEmpty then out
  else
    -- Find keyframes to interpolate between
    let nextIndex := findNextIndex boneAnim.keyframes time
    let b := boneAnim.boneIndex.toNat
    if nextIndex = 0 then
      -- Before first keyframe
      let kf := boneAnim.keyframes.getD 0 default
      writeBone out b kf.position kf.rotation kf.scale
    else if nextIndex ≥ boneAnim.keyframes.length then
      -- After last keyframe
      let kf := boneAnim.keyframes.getLastD default
      writeBone out b kf.position kf.rotation kf.scale
    else
      -- Interpolate between keyframes
      let kf1 := boneAnim.keyframes.getD (nextIndex - 1) default
      let kf2 := boneAnim.keyframes.getD nextIndex default
      let t := Math.Clamp ((time - kf1.time) / (kf2.time - kf1.time)) 0 1
      writeBone out b (Vector3.Lerp kf1.position kf2.position t)
        (Quaternion.Slerp m kf1.rotation kf2.rotation t)
        (Vector3.Lerp kf1.scale kf2.scale t)

/-- The output vectors after `resize(skeleton.size())` and the loop
"Initialize with bind pose", which assigns every index. -/
def bindPose (skeleton : List Bone) : BoneTransforms :=
  ⟨skeleton.map (fun b => b.position), skeleton.map (fun b => b.rotation),
    skeleton.map (fun b => b.scale)⟩

/-- `SampleClip(clip, time, positions, rotations, scales)`, the overload on
vectors (`AnimationController.cpp`, lines 361 to 422); `out` is the content of
the three output vectors on entry. -/
def SampleClip (m : Libm) (c : AnimationController) (clip : AnimationClip) (time : ℚ)
    (out : BoneTransforms) : BoneTransforms :=
  if c.skeleton.isEmpty then out
  else
    clip.boneAnimations.foldl (sampleBoneAnimation m c.skeleton.length time)
      (bindPose c.skeleton)

/-- `BlendTransforms(pos1, rot1, scale1, pos2, rot2, scale2, blend, ...)`; the
result is `(outPos, outRot, outScale)`. -/
def BlendTransforms (m : Libm) (pos1 : Vector3) (rot1 : Quaternion) (scale1 : Vector3)
    (pos2 : Vector3) (rot2 : Quaternion) (scale2 : Vector3) (blend : ℚ) :
    Vector3 × Quaternion × Vector3 :=
  (Vector3.Lerp pos1 pos2 blend, Quaternion.Slerp m rot1 rot2 blend,
    Vector3.Lerp scale1 scale2 blend)

/-- `v.resize(n)` on a vector whose element type default-constructs to `d`. -/
def resize {α : Type} (v : List α) (n : Nat) (d : α) : List α :=
  v.take n ++ List.replicate (n - v.length) d

/-- One iteration `i` of the blending loop of `GetBoneTransforms`. -/
def blendBone (m : Libm) (s1 s2 : BoneTransforms) (blend : ℚ) (out : BoneTransforms)
    (i : Nat) : BoneTransforms :=
  let r := BlendTransforms m (s1.positions.getD i default) (s1.rotations.getD i default)
    (s1.scales.getD i default) (s2.positions.getD i default) (s2.rotations.getD i default)
    (s2.scales.getD i default) blend
  writeBone out i r.1 r.2.1 r.2.2

/-- `GetBoneTransforms(positions, rotations, scales)`; `out` is the content of
the three output vectors on entry, and `none` is the exception thrown by
`clips.at`. -/
def GetBoneTransforms (m : Libm) (c : AnimationController) (out : BoneTransforms) :
    Option BoneTransforms :=
  if c.skeleton.isEmpty then some out
  else
    let n := c.skeleton.length
    let out1 : BoneTransforms :=
      ⟨resize out.positions n default, resize out.rotations n default,
        resize out.scales n default⟩
    if c.currentClipName = "" ∨ ¬ HasClip c c.currentClipName then
      -- Return bind pose
      some ((List.range n).foldl
        (fun o i =>
          writeBone o i ((c.skeleton.map (fun b => b.position)).getD i default)
            ((c.skeleton.map (fun b => b.rotation)).getD i default)
            ((c.skeleton.map (fun b => b.scale)).getD i default))
        out1)
    else
      match c.clips.lookup c.currentClipName with
      | none => none
      | some currentClip =>
        if c.nextClipName ≠ "" ∧ c.blendDuration > 0 then
          -- Blending between two animations
          match c.clips.lookup c.nextClipName with
          | none => none
          | some nextClip =>
            let s1 := SampleClip m c currentClip c.currentTime ⟨[], [], []⟩
            let s2 := SampleClip m c nextClip 0 ⟨[], [], []⟩
            let blend := Math.Clamp (c.blendTime / c.blendDuration) 0 1
            some ((List.range n).foldl (blendBone m s1 s2 blend) out1)
        else
          -- Single animation
          some (SampleClip m c currentClip c.currentTime out1)

end AnimationController

/-! ## `<cmath>` -/

/-- `std::fmod(x, y)`: `x - n * y`, where `n` is the quotient `x / y` with its
fractional part cut off (rounded toward zero).  The C function returns this
value exactly.  For `y = 0` the C function returns NaN, which is not
modelled: the definition gives `x`. -/
def fmod (x y : ℚ) : ℚ :=
  x - (if 0 ≤ x / y then ((⌊x / y⌋ : ℤ) : ℚ) else ((⌈x / y⌉ : ℤ) : ℚ)) * y

/-! ## Animation/AnimationController.cpp: the state machine -/

namespace AnimationStateMachine

/-- A default-constructed `AnimationStateMachine`. -/
def new : AnimationStateMachine := ⟨"", [], [], [], []⟩

/-- `AddState(name, clipName)`. -/
def AddState (sm : AnimationStateMachine) (name clipName : String) : AnimationStateMachine :=
  if sm.currentState = "" then
    { sm with
      stateToClip := (name, clipName) :: sm.stateToClip.filter (fun p => p.1 != name)
      currentState := name }
  else
    { sm with stateToClip := (name, clipName) :: sm.stateToClip.filter (fun p => p.1 != name) }

/-- `AddTransition(transition)`. -/
def AddTransition (sm : AnimationStateMachine) (transition : AnimationTransition) :
    AnimationStateMachine :=
  { sm with transitions := sm.transitions ++ [transition] }

/-- The overload `SetParameter(name, bool value)`. -/
def SetParameterBool (sm : AnimationStateMachine) (name : String) (value : Bool) :
    AnimationStateMachine :=
  { sm with boolParameters := (name, value) :: sm.boolParameters.filter (fun p => p.1 != name) }

/-- The overload `SetParameter(name, float value)`. -/
def SetParameterFloat (sm : AnimationStateMachine) (name : String) (value : ℚ) :
    AnimationStateMachine :=
  { sm with
    floatParameters := (name, value) :: sm.floatParameters.filter (fun p => p.1 != name) }

/-- `GetCurrentState()`. -/
def GetCurrentState (sm : AnimationStateMachine) : String := sm.currentState

/-- `GetTargetClip()`. -/
def GetTargetClip (sm : AnimationStateMachine) : String :=
  match sm.stateToClip.lookup sm.currentState with
  | some clipName => clipName
  | none => ""

/-- `EvaluateCondition(condition)`. -/
def EvaluateCondition (sm : AnimationStateMachine) (condition : String) : Bool :=
  match sm.boolParameters.lookup condition with
  | some value => value
  | none => false

/-- The loop of `AnimationStateMachine::Update` over the transitions still to
visit; the loop ends (`break`) at the first transition that fires. -/
def updateLoop (sm : AnimationStateMachine) : List AnimationTransition → AnimationStateMachine
  | [] => sm
  | transition :: rest =>
    if transition.fromState = sm.currentState ∧ EvaluateCondition sm transition.condition = true
    then { sm with currentState := transition.toState }
    else updateLoop sm rest

/-- `AnimationStateMachine::Update(deltaTime)`. -/
def Update (sm : AnimationStateMachine) (_deltaTime : ℚ) : AnimationStateMachine :=
  updateLoop sm sm.transitions

end AnimationStateMachine

/-! ## Animation/AnimationController.cpp: playback -/

namespace AnimationController

/-- `Stop()`. -/
def Stop (c : AnimationController) : AnimationController :=
  { c with state := AnimationState.Stopped, currentTime := 0 }

/-- `Pause()`. -/
def Pause (c : AnimationController) : AnimationController :=
  if c.state = AnimationState.Playing then { c with state := AnimationState.Paused } else c

/-- `Resume()`. -/
def Resume (c : AnimationController) : AnimationController :=
  if c.state = AnimationState.Paused then { c with state := AnimationState.Playing } else c

/-- `SetSpeed(speed)`. -/
def SetSpeed (c : AnimationController) (speed : ℚ) : AnimationController :=
  { c with playbackSpeed := speed }

/-- `SetLooping(loop)`. -/
def SetLooping (c : AnimationController) (loop : Bool) : AnimationController :=
  { c with looping := loop }

/-- `EnableStateMachine(enable)`. -/
def EnableStateMachine (c : AnimationController) (enable : Bool) : AnimationController :=
  { c with useStateMachine := enable }

/-- `EnableBlendTree(enable)`. -/
def EnableBlendTree (c : AnimationController) (enable : Bool) : AnimationController :=
  { c with useBlendTree := enable }

/-- `AddEvent(clipName, time, eventName)`. -/
def AddEvent (c : AnimationController) (clipName : String) (time : ℚ) (eventName : String) :
    AnimationController :=
  { c with events := c.events ++ [⟨clipName, time, eventName, false⟩] }

/-- `SetEventCallback(callback)`; `callback` says whether the pointer passed is
non-null. -/
def SetEventCallback (c : AnimationController) (callback : Bool) : AnimationController :=
  { c with eventCallback := callback }

/-- `Update(deltaTime)` (`AnimationController.cpp`, lines 159 to 194).  The
lookup `clips[currentClipName]` finds the clip, since `HasClip` was tested
before. -/
def Update (c : AnimationController) (deltaTime : ℚ) : AnimationController :=
  if c.state ≠ AnimationState.Playing then c
  else if c.currentClipName = "" ∨ ¬ HasClip c c.currentClipName then c
  else
    match c.clips.lookup c.currentClipName with
    | none => c
    | some clip =>
      -- Update time
      let c1 := { c with currentTime := c.currentTime + deltaTime * c.playbackSpeed }
      -- Handle looping
      let c2 :=
        if c1.currentTime ≥ clip.duration then
          if clip.looping = true ∨ c1.looping = true then
            { c1 with currentTime := fmod c1.currentTime clip.duration }
          else { c1 with currentTime := clip.duration, state := AnimationState.Stopped }
        else c1
      -- Handle blending
      if c2.nextClipName ≠ "" ∧ c2.blendDuration > 0 then
        let c3 := { c2 with blendTime := c2.blendTime + deltaTime }
        if c3.blendTime ≥ c3.blendDuration then
          -- Blend complete, switch to next animation
          { c3 with
            currentClipName := c3.nextClipName
            currentTime := 0
            nextClipName := ""
            blendTime := 0 }
        else c3
      else c2

/-- One iteration of the loop of `CheckEvents` on `event`: the event as the
iteration leaves it, and the names the callback is called with. -/
def checkEvent (c : AnimationController) (event : AnimationEvent) :
    AnimationEvent × List String :=
  let fires : Bool :=
    decide (event.clipName = c.currentClipName) && !event.triggered
      && decide (c.currentTime ≥ event.time)
  let e1 := if fires then { event with triggered := true } else event
  -- Reset triggered flag when animation loops
  let e2 := if c.currentTime < e1.time then { e1 with triggered := false } else e1
  (e2, if fires then [event.eventName] else [])

/-- `CheckEvents()`. -/
def CheckEvents (c : AnimationController) : AnimationController :=
  if c.eventCallback = false then c
  else
    { c with
      events := c.events.map (fun e => (checkEvent c e).1)
      callbackLog := c.callbackLog ++ (c.events.map (fun e => (checkEvent c e).2)).flatten }

/-- The controller states that a newly constructed controller reaches by
`AddClip` (clips with `duration > 0`), `Play`, `CrossFade`, `Stop`, `Pause`,
`Resume`, `SetSpeed`, `SetLooping` and `Update` (`deltaTime ≥ 0`).  `speedOk`
says which speeds `SetSpeed` is called with, and `clipOk c name clip` which
calls `AddClip(name, clip)` are made on the controller `c`. -/
inductive Reachable (speedOk : ℚ → Prop)
    (clipOk : AnimationController → String → AnimationClip → Prop) :
    AnimationController → Prop where
  | init : Reachable speedOk clipOk AnimationController.new
  | addClip {c : AnimationController} (name : String) (clip : AnimationClip) :
      Reachable speedOk clipOk c → clip.duration > 0 → clipOk c name clip →
      Reachable speedOk clipOk (AddClip c name clip)
  | play {c : AnimationController} (clipName : String) (fadeTime : ℚ) :
      Reachable speedOk clipOk c → Reachable speedOk clipOk (Play c clipName fadeTime)
  | crossFade {c : AnimationController} (clipName : String) (fadeTime : ℚ) :
      Reachable speedOk clipOk c → Reachable speedOk clipOk (CrossFade c clipName fadeTime)
  | stop {c : AnimationController} :
      Reachable speedOk clipOk c → Reachable speedOk clipOk (Stop c)
  | pause {c : AnimationController} :
      Reachable speedOk clipOk c → Reachable speedOk clipOk (Pause c)
  | resume {c : AnimationController} :
      Reachable speedOk clipOk c → Reachable speedOk clipOk (Resume c)
  | setSpeed {c : AnimationController} (speed : ℚ) :
      Reachable speedOk clipOk c → speedOk speed → Reachable speedOk clipOk (SetSpeed c speed)
  | setLooping {c : AnimationController} (loop : Bool) :
      Reachable speedOk clipOk c → Reachable speedOk clipOk (SetLooping c loop)
  | update {c : AnimationController} (deltaTime : ℚ) :
      Reachable speedOk clipOk c → deltaTime ≥ 0 →
      Reachable speedOk clipOk (Update c deltaTime)

/-- `SampleClip(clip, time, position, rotation, scale)`, the overload on one
transform (`AnimationController.cpp`, lines 236 to 277); the result is
`(position, rotation, scale)`.  It reads `clip.keyframes`, a member that
`struct AnimationClip` of the header does not declare: the keyframes of a
clip are taken as the parameter `keyframesOf`. -/
def SampleClipTransform (m : Libm) (keyframesOf : AnimationClip → List AnimationKeyframe)
    (clip : AnimationClip) (time : ℚ) : Vector3 × Quaternion × Vector3 :=
  if (keyframesOf clip).isEmpty then (Vector3.Zero, Quaternion.Identity, Vector3.One)
  else
    -- Find keyframes to interpolate between
    let nextIndex := findNextIndex (keyframesOf clip) time
    if nextIndex = 0 then
      -- Before first keyframe
      let kf := (keyframesOf clip).getD 0 default
      (kf.position, kf.rotation, kf.scale)
    else if nextIndex ≥ (keyframesOf clip).length then
      -- After last keyframe
      let kf := (keyframesOf clip).getLastD default
      (kf.position, kf.rotation, kf.scale)
    else
      -- Interpolate between keyframes
      let kf1 := (keyframesOf clip).getD (nextIndex - 1) default
      let kf2 := (keyframesOf clip).getD nextIndex default
      let t := Math.Clamp ((time - kf1.time) / (kf2.time - kf1.time)) 0 1
      (Vector3.Lerp kf1.position kf2.position t, Quaternion.Slerp m kf1.rotation kf2.rotation t,
        Vector3.Lerp kf1.scale kf2.scale t)

/-- `GetCurrentTransform(position, rotation, scale)`; the result is the three
output parameters, and `none` is the exception thrown by `clips.at`. -/
def GetCurrentTransform (m : Libm) (keyframesOf : AnimationClip → List AnimationKeyframe)
    (c : AnimationController) : Option (Vector3 × Quaternion × Vector3) :=
  if c.currentClipName = "" ∨ ¬ HasClip c c.currentClipName then
    some (Vector3.Zero, Quaternion.Identity, Vector3.One)
  else
    match c.clips.lookup c.currentClipName with
    | none => none
    | some currentClip =>
      if c.nextClipName ≠ "" ∧ c.blendDuration > 0 then
        -- Blending between two animations
        match c.clips.lookup c.nextClipName with
        | none => none
        | some nextClip =>
          let s1 := SampleClipTransform m keyframesOf currentClip c.currentTime
          let s2 := SampleClipTransform m keyframesOf nextClip 0
          let blend := Math.Clamp (c.blendTime / c.blendDuration) 0 1
          some (BlendTransforms m s1.1 s1.2.1 s1.2.2 s2.1 s2.2.1 s2.2.2 blend)
      else
        -- Single animation
        some (SampleClipTransform m keyframesOf currentClip c.currentTime)

/-- The controller states that a newly constructed controller reaches by the
public member functions of `class AnimationController`.  `GetStateMachine()`
and `GetBlendTree()` hand out references, through which the caller can put
the two sub-objects in any state. -/
inductive ReachablePublic : AnimationController → Prop where
  | init : ReachablePublic AnimationController.new
  | setSkeleton {c : AnimationController} (bones : List Bone) :
      ReachablePublic c → ReachablePublic (SetSkeleton c bones)
  | addClip {c : AnimationController} (name : String) (clip : AnimationClip) :
      ReachablePublic c → ReachablePublic (AddClip c name clip)
  | removeClip {c : AnimationController} (name : String) :
      ReachablePublic c → ReachablePublic (RemoveClip c name)
  | play {c : AnimationController} (clipName : String) (fadeTime : ℚ) :
      ReachablePublic c → ReachablePublic (Play c clipName fadeTime)
  | crossFade {c : AnimationController} (clipName : String) (fadeTime : ℚ) :
      ReachablePublic c → ReachablePublic (CrossFade c clipName fadeTime)
  | stop {c : AnimationController} : ReachablePublic c → ReachablePublic (Stop c)
  | pause {c : AnimationController} : ReachablePublic c → ReachablePublic (Pause c)
  | resume {c : AnimationController} : ReachablePublic c → ReachablePublic (Resume c)
  | update {c : AnimationController} (deltaTime : ℚ) :
      ReachablePublic c → ReachablePublic (Update c deltaTime)
  | setSpeed {c : AnimationController} (speed : ℚ) :
      ReachablePublic c → ReachablePublic (SetSpeed c speed)
  | setLooping {c : AnimationController} (loop : Bool) :
      ReachablePublic c → ReachablePublic (SetLooping c loop)
  | enableStateMachine {c : AnimationController} (enable : Bool) :
      ReachablePublic c → ReachablePublic (EnableStateMachine c enable)
  | enableBlendTree {c : AnimationController} (enable : Bool) :
      ReachablePublic c → ReachablePublic (EnableBlendTree c enable)
  | addEvent {c : AnimationController} (clipName : String) (time : ℚ) (eventName : String) :
      ReachablePublic c → ReachablePublic (AddEvent c clipName time eventName)
  | setEventCallback {c : AnimationController} (callback : Bool) :
      ReachablePublic c → ReachablePublic (SetEventCallback c callback)
  | getStateMachine {c : AnimationController} (sm : AnimationStateMachine) :
      ReachablePublic c → ReachablePublic { c with stateMachine := sm }
  | getBlendTree {c : AnimationController} (tree : BlendTree) :
      ReachablePublic c → ReachablePublic { c with blendTree := tree }

end AnimationController

namespace AnimationStateMachine

/-- A newly constructed state machine after the calls `AddState(name, clipName)`
for the pairs of `calls`, in order. -/
def addStates (calls : List (String × String)) : AnimationStateMachine :=
  calls.foldl (fun sm call => AddState sm call.1 call.2) new

end AnimationStateMachine

/-! ## Animation/AnimationController.cpp: the blend tree -/

/-- A call of one of the two public member functions of `class BlendTree` that
change it. -/
inductive BlendTreeCall where
  | addNode (node : BlendNode)
  | setBlendParameter (x y : ℚ)
  deriving DecidableEq, Repr

namespace BlendTreeCall

/-- The call with the `weight` member of the node passed to `AddNode`
replaced by 0. -/
def withoutWeight : BlendTreeCall → BlendTreeCall
  | addNode node => addNode { node with weight := 0 }
  | setBlendParameter x y => setBlendParameter x y

end BlendTreeCall

namespace BlendTree

/-- A default-constructed `BlendTree`. -/
def new : BlendTree := ⟨[], ⟨0, 0⟩⟩

/-- `AddNode(node)`. -/
def AddNode (tree : BlendTree) (node : BlendNode) : BlendTree :=
  { tree with nodes := tree.nodes ++ [node] }

/-- The weight the first loop of `CalculateWeights` gives a node:
`std::max(0.0f, 1.0f - distance)`. -/
def rawWeight (m : Libm) (blendParameter : Vector2) (node : BlendNode) : ℚ :=
  let dx := blendParameter.x - node.position.x
  let dy := blendParameter.y - node.position.y
  let distance := m.sqrt (dx * dx + dy * dy)
  Math.Max 0 (1 - distance)

/-- The first loop of `CalculateWeights` over the nodes still to visit, entered
with the running `totalWeight`: the nodes with their new weights, and the
final `totalWeight`. -/
def weighLoop (m : Libm) (blendParameter : Vector2) : List BlendNode → ℚ → List BlendNode × ℚ
  | [], totalWeight => ([], totalWeight)
  | node :: rest, totalWeight =>
    let r := weighLoop m blendParameter rest (totalWeight + rawWeight m blendParameter node)
    ({ node with weight := rawWeight m blendParameter node } :: r.1, r.2)

/-- `CalculateWeights()`. -/
def CalculateWeights (m : Libm) (tree : BlendTree) : BlendTree :=
  let r := weighLoop m tree.blendParameter tree.nodes 0
  -- Normalize weights
  if r.2 > 0 then
    { tree with nodes := r.1.map (fun node => { node with weight := node.weight / r.2 }) }
  else { tree with nodes := r.1 }

/-- `SetBlendParameter(x, y)`. -/
def SetBlendParameter (m : Libm) (tree : BlendTree) (x y : ℚ) : BlendTree :=
  CalculateWeights m { tree with blendParameter := ⟨x, y⟩ }

/-- `GetActiveClips()`; the literal `0.001f` is taken as `1/1000`. -/
def GetActiveClips (tree : BlendTree) : List (String × ℚ) :=
  (tree.nodes.filter (fun node => decide (node.weight > 1 / 1000))).map
    (fun node => (node.clipName, node.weight))

/-- The effect of one call on a blend tree. -/
def call (m : Libm) (tree : BlendTree) : BlendTreeCall → BlendTree
  | BlendTreeCall.addNode node => AddNode tree node
  | BlendTreeCall.setBlendParameter x y => SetBlendParameter m tree x y

/-- A newly constructed blend tree after the calls of `calls`, in order. -/
def run (m : Libm) (calls : List BlendTreeCall) : BlendTree :=
  calls.foldl (call m) new

end BlendTree

/-! ## Concrete inputs used to evaluate the code -/

namespace Examples

/-- A root bone with bind position `(7, 7, 7)`. -/
def rootBone : Bone := ⟨"root", -1, ⟨7, 7, 7⟩, Quaternion.Identity, Vector3.One⟩

/-- A controller whose skeleton is the single bone `rootBone`. -/
def controller : AnimationController :=
  AnimationController.SetSkeleton AnimationController.new [rootBone]

/-- A keyframe at time `t` with position `(x, 0, 0)`, identity rotation and
unit scale. -/
def keyAt (t x : ℚ) : AnimationKeyframe := ⟨t, ⟨x, 0, 0⟩, Quaternion.Identity, Vector3.One⟩

/-- Bone 0 moves from `(0, 0, 0)` at time 0 to `(10, 0, 0)` at time 1. -/
def slideTrack : BoneAnimation := ⟨0, [keyAt 0 0, keyAt 1 10]⟩

def slide : AnimationClip := ⟨"slide", 1, false, [slideTrack]⟩

/-- A track sorted ascending by time whose first two keyframes share time 0. -/
def stutterTrack : BoneAnimation := ⟨0, [keyAt 0 0, keyAt 0 5, keyAt 1 10]⟩

def stutter : AnimationClip := ⟨"stutter", 1, false, [stutterTrack]⟩

/-- The controller after `AddClip("A", slide)`, `AddClip("B", stutter)` and
`Play("A", 0)`. -/
def playingA : AnimationController :=
  AnimationController.Play
    (AnimationController.AddClip (AnimationController.AddClip controller "A" slide) "B" stutter)
    "A" 0

/-- The controller `playingA` after `Play("B", 1/2)`: a cross-fade to "B" is in
progress. -/
def fading : AnimationController := AnimationController.Play playingA "B" (1 / 2)

/-- A looping clip of duration 2 with no track. -/
def loopClip : AnimationClip := ⟨"loop", 2, true, []⟩

/-- A clip of duration 1 whose looping flag is false, with no track. -/
def onceClip : AnimationClip := ⟨"once", 1, false, []⟩

/-- A newly constructed controller after `AddClip("L", loopClip)` and
`Play("L", 0)`. -/
def playingLoop : AnimationController :=
  AnimationController.Play (AnimationController.AddClip AnimationController.new "L" loopClip)
    "L" 0

/-- A newly constructed controller after `AddClip("O", onceClip)` and
`Play("O", 0)`; the controller-level looping flag has its initial value
`true`. -/
def playingOnce : AnimationController :=
  AnimationController.Play (AnimationController.AddClip AnimationController.new "O" onceClip)
    "O" 0

/-- The controller `playingLoop` with the event "step" added at time 1 of the
clip "L" and a callback registered. -/
def withEvent : AnimationController :=
  AnimationController.SetEventCallback (AnimationController.AddEvent playingLoop "L" 1 "step")
    true

/-- A state machine with the states Idle (clip "A") and Run (clip "B"), the
transition from Idle to Run on the condition "move", and "move" set to true. -/
def idleRun : AnimationStateMachine :=
  AnimationStateMachine.SetParameterBool
    (AnimationStateMachine.AddTransition
      (AnimationStateMachine.AddState
        (AnimationStateMachine.AddState AnimationStateMachine.new "Idle" "A") "Run" "B")
      ⟨"Idle", "Run", "move", 3 / 10⟩)
    "move" true

/-- The controller `playingA` with the state machine `idleRun` and the
state-machine layer enabled. -/
def drivenByStateMachine : AnimationController :=
  AnimationController.EnableStateMachine { playingA with stateMachine := idleRun } true

/-- A blend node for the clip `clipName` at `(x, y)`, with its `weight` member
set to `weight`. -/
def nodeAt (clipName : String) (x y weight : ℚ) : BlendNode := ⟨clipName, weight, ⟨x, y⟩⟩

/-- The calls `AddNode` for nodes at `(0, 0)`, `(1, 0)` and `(0, 1)`. -/
def threeNodes : List BlendTreeCall :=
  [BlendTreeCall.addNode (nodeAt "idle" 0 0 0), BlendTreeCall.addNode (nodeAt "walk" 1 0 0),
    BlendTreeCall.addNode (nodeAt "strafe" 0 1 0)]

end Examples

/-! ## Lemmas on the output vectors -/

theorem Vector3.add_def (a b : Vector3) : a + b = ⟨a.x + b.x, a.y + b.y, a.z + b.z⟩ := rfl

theorem Vector3.sub_def (a b : Vector3) : a - b = ⟨a.x - b.x, a.y - b.y, a.z - b.z⟩ := rfl

theorem Vector3.mul_def (a : Vector3) (t : ℚ) : a * t = ⟨a.x * t, a.y * t, a.z * t⟩ := rfl

theorem Vector3.Lerp_zero (a b : Vector3) : Vector3.Lerp a b 0 = a := by
  cases a; cases b
  simp [Vector3.Lerp, Vector3.add_def, Vector3.sub_def, Vector3.mul_def]

theorem Vector3.Lerp_one (a b : Vector3) : Vector3.Lerp a b 1 = b := by
  cases a; cases b
  simp [Vector3.Lerp, Vector3.add_def, Vector3.sub_def, Vector3.mul_def]

namespace AnimationController

open Examples

theorem writeBone_hasSize {o : BoneTransforms} {n : Nat} (h : o.HasSize n) (b : Nat)
    (p : Vector3) (r : Quaternion) (s : Vector3) : (writeBone o b p r s).HasSize n := by
  obtain ⟨h1, h2, h3⟩ := h
  exact ⟨by simp [writeBone, h1], by simp [writeBone, h2], by simp [writeBone, h3]⟩

theorem read_writeBone_self {o : BoneTransforms} {n : Nat} (h : o.HasSize n) {b : Nat}
    (hb : b < n) (p : Vector3) (r : Quaternion) (s : Vector3) :
    (writeBone o b p r s).read b = some (p, r, s) := by
  obtain ⟨h1, h2, h3⟩ := h
  have e1 : (o.positions.set b p)[b]? = some p := List.getElem?_set_self (by omega)
  have e2 : (o.rotations.set b r)[b]? = some r := List.getElem?_set_self (by omega)
  have e3 : (o.scales.set b s)[b]? = some s := List.getElem?_set_self (by omega)
  simp only [BoneTransforms.read, writeBone, e1, e2, e3]

theorem read_writeBone_of_ne (o : BoneTransforms) {b i : Nat} (hne : b ≠ i)
    (p : Vector3) (r : Quaternion) (s : Vector3) :
    (writeBone o b p r s).read i = o.read i := by
  simp only [BoneTransforms.read, writeBone, List.getElem?_set_ne hne]

theorem read_eq_some_of_hasSize {o : BoneTransforms} {n i : Nat} (h : o.HasSize n)
    (hi : i < n) : ∃ p r s, o.read i = some (p, r, s) := by
  obtain ⟨h1, h2, h3⟩ := h
  have e1 : o.positions[i]? = some (o.positions[i]) := List.getElem?_eq_getElem (by omega)
  have e2 : o.rotations[i]? = some (o.rotations[i]) := List.getElem?_eq_getElem (by omega)
  have e3 : o.scales[i]? = some (o.scales[i]) := List.getElem?_eq_getElem (by omega)
  exact ⟨o.positions[i], o.rotations[i], o.scales[i], by simp only [BoneTransforms.read, e1, e2, e3]⟩

theorem bindPose_hasSize (skeleton : List Bone) : (bindPose skeleton).HasSize skeleton.length := by
  simp [bindPose, BoneTransforms.HasSize]

theorem read_bindPose (skeleton : List Bone) (i : Nat) (bone : Bone)
    (h : skeleton[i]? = some bone) :
    (bindPose skeleton).read i = some (bone.position, bone.rotation, bone.scale) := by
  simp [BoneTransforms.read, bindPose, List.getElem?_map, h]

theorem sampleBoneAnimation_hasSize (m : Libm) (k : Nat) (time : ℚ) {o : BoneTransforms}
    {n : Nat} (h : o.HasSize n) (boneAnim : BoneAnimation) :
    (sampleBoneAnimation m k time o boneAnim).HasSize n := by
  unfold sampleBoneAnimation
  dsimp only []
  split_ifs <;> first | exact h | exact writeBone_hasSize h _ _ _ _

theorem foldl_sampleBoneAnimation_hasSize (m : Libm) (k : Nat) (time : ℚ)
    (l : List BoneAnimation) {o : BoneTransforms} {n : Nat} (h : o.HasSize n) :
    (l.foldl (sampleBoneAnimation m k time) o).HasSize n := by
  induction l generalizing o with
  | nil => exact h
  | cons a l ih => exact ih (sampleBoneAnimation_hasSize m k time h a)

/-- A track that is skipped, or that animates another bone, leaves bone `i` as
it was. -/
theorem read_sampleBoneAnimation_of_ne (m : Libm) (k : Nat) (time : ℚ) (o : BoneTransforms)
    (boneAnim : BoneAnimation) (i : Nat)
    (h : boneAnim.keyframes ≠ [] → boneAnim.boneIndex ≠ (i : Int)) :
    (sampleBoneAnimation m k time o boneAnim).read i = o.read i := by
  unfold sampleBoneAnimation
  by_cases hskip : boneAnim.boneIndex < 0 ∨ boneAnim.boneIndex ≥ (k : Int)
  · rw [if_pos hskip]
  · rw [if_neg hskip]
    by_cases hempty : boneAnim.keyframes.isEmpty = true
    · rw [if_pos hempty]
    · rw [if_neg hempty]
      have hne : boneAnim.keyframes ≠ [] := by
        intro e; apply hempty; simp [e]
      have hb : boneAnim.boneIndex.toNat ≠ i := by
        intro e
        apply h hne
        have : 0 ≤ boneAnim.boneIndex := by
          by_contra hc; exact hskip (Or.inl (lt_of_not_ge hc))
        omega
      dsimp only []
      split_ifs <;> exact read_writeBone_of_ne _ hb _ _ _

theorem read_foldl_sampleBoneAnimation_of_ne (m : Libm) (k : Nat) (time : ℚ)
    (l : List BoneAnimation) (o : BoneTransforms) (i : Nat)
    (h : ∀ tr ∈ l, tr.keyframes ≠ [] → tr.boneIndex ≠ (i : Int)) :
    (l.foldl (sampleBoneAnimation m k time) o).read i = o.read i := by
  induction l generalizing o with
  | nil => rfl
  | cons a l ih =>
    rw [List.foldl_cons, ih _ (fun tr htr => h tr (List.mem_cons_of_mem _ htr))]
    exact read_sampleBoneAnimation_of_ne m k time o a i (h a (List.mem_cons_self _ _))

theorem positions_of_read {o : BoneTransforms} {i : Nat} {p : Vector3} {r : Quaternion}
    {s : Vector3} (h : o.read i = some (p, r, s)) :
    o.positions[i]? = some p ∧ o.rotations[i]? = some r ∧ o.scales[i]? = some s := by
  unfold BoneTransforms.read at h
  split at h
  · rename_i p1 r1 s1 e1 e2 e3
    simp only [Option.some.injEq, Prod.mk.injEq] at h
    obtain ⟨hp, hr, hs⟩ := h
    subst hp hr hs
    exact ⟨e1, e2, e3⟩
  · exact absurd h (by simp)

/-! ## Lemmas on the keyframe search -/

/-- When no keyframe is later than `time` the search loop ends without a hit
and `nextIndex` keeps its initial value `0`. -/
theorem findNextIndexFrom_of_all_le (time : ℚ) (kfs : List AnimationKeyframe) (s : Nat)
    (h : ∀ k ∈ kfs, k.time ≤ time) : findNextIndexFrom time kfs s = 0 := by
  induction kfs generalizing s with
  | nil => rfl
  | cons k rest ih =>
    have hk : ¬ k.time > time := not_lt.mpr (h k (List.mem_cons_self _ _))
    simp only [findNextIndexFrom, if_neg hk]
    exact ih (s + 1) (fun k1 hk1 => h k1 (List.mem_cons_of_mem _ hk1))

/-- On strictly ascending keyframes the search stops right after the last
keyframe that is not later than `time`. -/
theorem findNextIndexFrom_bracket (time : ℚ) (kfs : List AnimationKeyframe) (s i : Nat)
    (k0 k1 : AnimationKeyframe) (hs : kfs.Pairwise (fun a b => a.time < b.time))
    (h0 : kfs[i]? = some k0) (h1 : kfs[i + 1]? = some k1)
    (ht0 : k0.time ≤ time) (ht1 : time < k1.time) :
    findNextIndexFrom time kfs s = s + (i + 1) := by
  induction kfs generalizing s i with
  | nil => simp at h0
  | cons k rest ih =>
    rw [List.pairwise_cons] at hs
    cases i with
    | zero =>
      simp only [List.getElem?_cons_zero, Option.some.injEq] at h0
      subst h0
      have hk : ¬ k.time > time := not_lt.mpr ht0
      simp only [findNextIndexFrom, if_neg hk]
      cases rest with
      | nil => simp at h1
      | cons k2 rest2 =>
        simp only [zero_add, List.getElem?_cons_succ, List.getElem?_cons_zero,
          Option.some.injEq] at h1
        subst h1
        simp only [findNextIndexFrom, if_pos ht1, zero_add]
    | succ j =>
      simp only [List.getElem?_cons_succ] at h0 h1
      have hmem : k0 ∈ rest := List.getElem?_mem h0
      have hk : ¬ k.time > time := not_lt.mpr (le_trans (le_of_lt (hs.1 k0 hmem)) ht0)
      simp only [findNextIndexFrom, if_neg hk]
      rw [ih (s + 1) j hs.2 h0 h1]
      omega

theorem Clamp_unit_of_mem (f : ℚ) (h0 : 0 ≤ f) (h1 : f ≤ 1) : Math.Clamp f 0 1 = f := by
  unfold Math.Clamp Math.Min Math.Max
  rw [if_neg (not_lt.mpr h1)]
  rcases eq_or_lt_of_le h0 with h | h
  · rw [if_neg (by rw [← h]; exact lt_irrefl _)]; exact h
  · rw [if_pos h]

/-! ## Lemmas on one track -/

/-- A track whose search ends with `nextIndex = 0` writes its first keyframe. -/
theorem read_sampleBoneAnimation_first (m : Libm) (n : Nat) (time : ℚ) {o : BoneTransforms}
    (ho : o.HasSize n) (boneAnim : BoneAnimation) (k0 : AnimationKeyframe)
    (rest : List AnimationKeyframe) (hlo : 0 ≤ boneAnim.boneIndex)
    (hhi : boneAnim.boneIndex < (n : Int)) (hkeys : boneAnim.keyframes = k0 :: rest)
    (hnext : findNextIndex boneAnim.keyframes time = 0) :
    (sampleBoneAnimation m n time o boneAnim).read boneAnim.boneIndex.toNat
      = some (k0.position, k0.rotation, k0.scale) := by
  unfold sampleBoneAnimation
  have hskip : ¬ (boneAnim.boneIndex < 0 ∨ boneAnim.boneIndex ≥ (n : Int)) := by omega
  have hempty : ¬ boneAnim.keyframes.isEmpty = true := by simp [hkeys]
  rw [if_neg hskip, if_neg hempty]
  dsimp only []
  rw [if_pos hnext, hkeys]
  exact read_writeBone_self ho (by omega) _ _ _

/-- A track whose search ends with `nextIndex = j + 1` inside the keyframe list
writes the interpolation of keyframes `j` and `j + 1`. -/
theorem read_sampleBoneAnimation_interp (m : Libm) (n : Nat) (time : ℚ) {o : BoneTransforms}
    (ho : o.HasSize n) (boneAnim : BoneAnimation) (j : Nat) (k0 k1 : AnimationKeyframe)
    (hlo : 0 ≤ boneAnim.boneIndex) (hhi : boneAnim.boneIndex < (n : Int))
    (h0 : boneAnim.keyframes[j]? = some k0) (h1 : boneAnim.keyframes[j + 1]? = some k1)
    (hnext : findNextIndex boneAnim.keyframes time = j + 1) :
    (sampleBoneAnimation m n time o boneAnim).read boneAnim.boneIndex.toNat
      = some
        (Vector3.Lerp k0.position k1.position
            (Math.Clamp ((time - k0.time) / (k1.time - k0.time)) 0 1),
          Quaternion.Slerp m k0.rotation k1.rotation
            (Math.Clamp ((time - k0.time) / (k1.time - k0.time)) 0 1),
          Vector3.Lerp k0.scale k1.scale
            (Math.Clamp ((time - k0.time) / (k1.time - k0.time)) 0 1)) := by
  unfold sampleBoneAnimation
  have hskip : ¬ (boneAnim.boneIndex < 0 ∨ boneAnim.boneIndex ≥ (n : Int)) := by omega
  have hlen : j + 1 < boneAnim.keyframes.length := by
    rcases Nat.lt_or_ge (j + 1) boneAnim.keyframes.length with h | h
    · exact h
    · rw [List.getElem?_eq_none h] at h1; exact absurd h1 (by simp)
  have hempty : ¬ boneAnim.keyframes.isEmpty = true := by
    intro e
    rw [List.isEmpty_iff] at e
    rw [e] at hlen
    simp at hlen
  rw [if_neg hskip, if_neg hempty]
  dsimp only []
  rw [hnext, if_neg (Nat.succ_ne_zero j), if_neg (by omega)]
  simp only [Nat.add_sub_cancel, List.getD_eq_getElem?_getD, h0, h1, Option.getD_some]
  exact read_writeBone_self ho (by omega) _ _ _

/-- The value `SampleClip` returns for the bone of a track that no later track
of the clip animates is the value that track writes. -/
theorem read_SampleClip_track (m : Libm) (c : AnimationController) (clip : AnimationClip)
    (time : ℚ) (out : BoneTransforms) (pre post : List BoneAnimation) (track : BoneAnimation)
    (hclip : clip.boneAnimations = pre ++ track :: post)
    (hpost : ∀ tr ∈ post, tr.boneIndex ≠ track.boneIndex)
    (hlo : 0 ≤ track.boneIndex) (hhi : track.boneIndex < (c.skeleton.length : Int)) :
    (SampleClip m c clip time out).read track.boneIndex.toNat
      = (sampleBoneAnimation m c.skeleton.length time
          (pre.foldl (sampleBoneAnimation m c.skeleton.length time) (bindPose c.skeleton))
          track).read track.boneIndex.toNat := by
  have hne : ¬ c.skeleton.isEmpty = true := by
    intro e
    rw [List.isEmpty_iff] at e
    rw [e] at hhi
    simp at hhi
    omega
  unfold SampleClip
  rw [if_neg hne, hclip, List.foldl_append, List.foldl_cons]
  apply read_foldl_sampleBoneAnimation_of_ne
  intro tr htr _
  have := hpost tr htr
  intro e
  apply this
  omega

end AnimationController

/-! ## Lemmas on `Quaternion::Slerp` at the end points -/

theorem Quaternion.Normalize_of_unit (m : Libm) (hsqrt : m.sqrt 1 = 1) (q : Quaternion)
    (hq : q.LengthSquared = 1) : Quaternion.Normalize m q = q := by
  unfold Quaternion.LengthSquared at hq
  unfold Quaternion.Normalize Quaternion.Length
  simp [hq, hsqrt]

theorem Quaternion.LengthSquared_neg (q : Quaternion) :
    (Quaternion.mulScalar q (-1)).LengthSquared = q.LengthSquared := by
  unfold Quaternion.LengthSquared Quaternion.mulScalar
  ring

theorem Quaternion.Lerp_quat_zero (a b : Quaternion) : Quaternion.Lerp a b 0 = a := by
  simp [Quaternion.Lerp]

theorem Quaternion.Lerp_quat_one (a b : Quaternion) : Quaternion.Lerp a b 1 = b := by
  simp [Quaternion.Lerp]

/-- At `t = 0` both branches of `Slerp` return the first end point. -/
theorem Quaternion.Slerp_zero (m : Libm) (hsqrt : m.sqrt 1 = 1) (hsin0 : m.sin 0 = 0)
    (hsin : ∀ d : ℚ, 0 ≤ d → d ≤ 9995 / 10000 → m.sin (m.acos d) ≠ 0)
    (a b : Quaternion) (ha : a.LengthSquared = 1) : Quaternion.Slerp m a b 0 = a := by
  unfold Quaternion.Slerp
  dsimp only []
  split_ifs with h1 h2 h2
  · rw [Quaternion.Lerp_quat_zero, Quaternion.Normalize_of_unit m hsqrt a ha]
  · have hne := hsin (-Quaternion.Dot a b) (by linarith) (not_lt.mp h2)
    simp [hsin0, div_self hne]
  · rw [Quaternion.Lerp_quat_zero, Quaternion.Normalize_of_unit m hsqrt a ha]
  · have hne := hsin (Quaternion.Dot a b) (not_lt.mp h1) (not_lt.mp h2)
    simp [hsin0, div_self hne]

/-- At `t = 1` both branches of `Slerp` return the second end point with the
sign the shortest-path step gave it. -/
theorem Quaternion.Slerp_one (m : Libm) (hsqrt : m.sqrt 1 = 1) (hsin0 : m.sin 0 = 0)
    (hsin : ∀ d : ℚ, 0 ≤ d → d ≤ 9995 / 10000 → m.sin (m.acos d) ≠ 0)
    (a b : Quaternion) (hb : b.LengthSquared = 1) :
    Quaternion.Slerp m a b 1
      = if Quaternion.Dot a b < 0 then Quaternion.mulScalar b (-1) else b := by
  unfold Quaternion.Slerp
  dsimp only []
  split_ifs with h1 h2 h2
  · rw [Quaternion.Lerp_quat_one, Quaternion.Normalize_of_unit m hsqrt _
      ((Quaternion.LengthSquared_neg b).trans hb)]
  · have hne := hsin (-Quaternion.Dot a b) (by linarith) (not_lt.mp h2)
    simp [hsin0, div_self hne, Quaternion.mulScalar]
  · rw [Quaternion.Lerp_quat_one, Quaternion.Normalize_of_unit m hsqrt b hb]
  · have hne := hsin (Quaternion.Dot a b) (not_lt.mp h1) (not_lt.mp h2)
    simp [hsin0, div_self hne]

namespace AnimationController

open Examples

/-! ## Lemmas on the loops of `GetBoneTransforms` -/

/-- A loop that writes bone `i` for every `i < k` leaves the sizes alone and
stores the written pose at every index below `k`. -/
theorem read_foldl_writeBone_range (p : Nat → Vector3) (r : Nat → Quaternion)
    (s : Nat → Vector3) (o : BoneTransforms) (n : Nat) (ho : o.HasSize n) (k : Nat)
    (hk : k ≤ n) :
    ((List.range k).foldl (fun acc i => writeBone acc i (p i) (r i) (s i)) o).HasSize n
      ∧ ∀ j, j < k →
        ((List.range k).foldl (fun acc i => writeBone acc i (p i) (r i) (s i)) o).read j
          = some (p j, r j, s j) := by
  induction k with
  | zero => exact ⟨ho, fun j hj => absurd hj (Nat.not_lt_zero j)⟩
  | succ k ih =>
    obtain ⟨hsize, hread⟩ := ih (Nat.le_of_succ_le hk)
    rw [List.range_succ, List.foldl_append, List.foldl_cons, List.foldl_nil]
    refine ⟨writeBone_hasSize hsize _ _ _ _, fun j hj => ?_⟩
    rcases Nat.lt_or_ge j k with hlt | hge
    · rw [read_writeBone_of_ne _ (by omega)]
      exact hread j hlt
    · have hjk : j = k := by omega
      subst hjk
      exact read_writeBone_self hsize (by omega) _ _ _

theorem resize_length {α : Type} (v : List α) (n : Nat) (d : α) :
    (resize v n d).length = n := by
  simp [resize]
  omega

/-- Two triples of vectors of the same size that hold the same pose for every
bone are equal. -/
theorem eq_of_read_eq {o1 o2 : BoneTransforms} {n : Nat} (h1 : o1.HasSize n)
    (h2 : o2.HasSize n) (h : ∀ j, j < n → o1.read j = o2.read j) : o1 = o2 := by
  have key : ∀ j : Nat, o1.positions[j]? = o2.positions[j]? ∧ o1.rotations[j]? = o2.rotations[j]?
      ∧ o1.scales[j]? = o2.scales[j]? := by
    intro j
    rcases Nat.lt_or_ge j n with hlt | hge
    · obtain ⟨p, r, s, e⟩ := read_eq_some_of_hasSize h2 hlt
      have e1 := positions_of_read ((h j hlt).trans e)
      have e2 := positions_of_read e
      exact ⟨e1.1.trans e2.1.symm, e1.2.1.trans e2.2.1.symm, e1.2.2.trans e2.2.2.symm⟩
    · obtain ⟨a1, a2, a3⟩ := h1
      obtain ⟨b1, b2, b3⟩ := h2
      refine ⟨?_, ?_, ?_⟩ <;>
        rw [List.getElem?_eq_none (by omega), List.getElem?_eq_none (by omega)]
  cases o1; cases o2
  simp only [BoneTransforms.mk.injEq]
  refine ⟨?_, ?_, ?_⟩
  · apply List.ext_getElem?
    intro j
    exact (key j).1
  · apply List.ext_getElem?
    intro j
    exact (key j).2.1
  · apply List.ext_getElem?
    intro j
    exact (key j).2.2

/-! ## The sampler (`SampleClip`) -/

/-- What the search loop does when no keyframe is later than the sample time:
for a track on a bone of the skeleton, which no later track of the clip
animates, `SampleClip` returns the pose of the track's first keyframe. -/
theorem read_SampleClip_of_no_later_keyframe (m : Libm) (c : AnimationController)
    (clip : AnimationClip) (time : ℚ) (out : BoneTransforms) (pre post : List BoneAnimation)
    (track : BoneAnimation) (k0 : AnimationKeyframe) (rest : List AnimationKeyframe)
    (hclip : clip.boneAnimations = pre ++ track :: post)
    (hpost : ∀ tr ∈ post, tr.boneIndex ≠ track.boneIndex)
    (hlo : 0 ≤ track.boneIndex) (hhi : track.boneIndex < (c.skeleton.length : Int))
    (hkeys : track.keyframes = k0 :: rest)
    (hlate : ∀ k ∈ track.keyframes, k.time ≤ time) :
    (SampleClip m c clip time out).read track.boneIndex.toNat
      = some (k0.position, k0.rotation, k0.scale) := by
  rw [read_SampleClip_track m c clip time out pre post track hclip hpost hlo hhi]
  exact read_sampleBoneAnimation_first m c.skeleton.length time
    (foldl_sampleBoneAnimation_hasSize m c.skeleton.length time pre (bindPose_hasSize c.skeleton))
    track k0 rest hlo hhi hkeys (findNextIndexFrom_of_all_le time track.keyframes 0 hlate)

/-- C1, evaluated on the code: sampling the clip `slide` (bone 0, keyframes at
times 0 and 1 with positions `(0, 0, 0)` and `(10, 0, 0)`) at time 1, which is
the time of its last keyframe and its duration, and at time 2, gives bone 0
the pose of the first keyframe, which is not the pose of the last keyframe:
the search loop finds no keyframe later than the sample time and leaves
`nextIndex` at 0, the value of the branch "Before first keyframe". -/
theorem SampleClip_at_last_keyframe_gives_first (m : Libm) :
    (SampleClip m controller slide 1 ⟨[], [], []⟩).read 0
        = some ((keyAt 0 0).position, (keyAt 0 0).rotation, (keyAt 0 0).scale)
      ∧ (SampleClip m controller slide 2 ⟨[], [], []⟩).read 0
        = some ((keyAt 0 0).position, (keyAt 0 0).rotation, (keyAt 0 0).scale)
      ∧ (SampleClip m controller slide 1 ⟨[], [], []⟩).read 0
        ≠ some ((keyAt 1 10).position, (keyAt 1 10).rotation, (keyAt 1 10).scale) := by
  have h1 : (SampleClip m controller slide 1 ⟨[], [], []⟩).read 0
      = some ((keyAt 0 0).position, (keyAt 0 0).rotation, (keyAt 0 0).scale) := rfl
  refine ⟨h1, rfl, ?_⟩
  rw [h1]
  decide

/-- C2: for a track on a bone of the skeleton, which no later track of the clip
animates, whose keyframes are strictly ascending in time, and a time `time`
with `k[i].time ≤ time < k[i+1].time`, `SampleClip` returns for that bone the
position `k[i].position + (k[i+1].position - k[i].position) * f` and the scale
`k[i].scale + (k[i+1].scale - k[i].scale) * f`, where
`f = (time - k[i].time) / (k[i+1].time - k[i].time)`. -/
theorem SampleClip_interpolates_bracketing_pair (m : Libm) (c : AnimationController)
    (clip : AnimationClip) (time : ℚ) (out : BoneTransforms) (pre post : List BoneAnimation)
    (track : BoneAnimation) (i : Nat) (k0 k1 : AnimationKeyframe)
    (hclip : clip.boneAnimations = pre ++ track :: post)
    (hpost : ∀ tr ∈ post, tr.boneIndex ≠ track.boneIndex)
    (hlo : 0 ≤ track.boneIndex) (hhi : track.boneIndex < (c.skeleton.length : Int))
    (hsorted : track.keyframes.Pairwise (fun a b => a.time < b.time))
    (h0 : track.keyframes[i]? = some k0) (h1 : track.keyframes[i + 1]? = some k1)
    (ht0 : k0.time ≤ time) (ht1 : time < k1.time) :
    (SampleClip m c clip time out).positions[track.boneIndex.toNat]?
        = some (k0.position
            + (k1.position - k0.position) * ((time - k0.time) / (k1.time - k0.time)))
      ∧ (SampleClip m c clip time out).scales[track.boneIndex.toNat]?
        = some (k0.scale + (k1.scale - k0.scale) * ((time - k0.time) / (k1.time - k0.time))) := by
  have hnext : findNextIndex track.keyframes time = i + 1 := by
    unfold findNextIndex
    rw [findNextIndexFrom_bracket time track.keyframes 0 i k0 k1 hsorted h0 h1 ht0 ht1]
    omega
  have hden : 0 < k1.time - k0.time := by linarith
  have hf0 : 0 ≤ (time - k0.time) / (k1.time - k0.time) :=
    div_nonneg (by linarith) (le_of_lt hden)
  have hf1 : (time - k0.time) / (k1.time - k0.time) ≤ 1 := by
    rw [div_le_one hden]
    linarith
  have hread := read_SampleClip_track m c clip time out pre post track hclip hpost hlo hhi
  rw [read_sampleBoneAnimation_interp m c.skeleton.length time
    (foldl_sampleBoneAnimation_hasSize m c.skeleton.length time pre (bindPose_hasSize c.skeleton))
    track i k0 k1 hlo hhi h0 h1 hnext, Clamp_unit_of_mem _ hf0 hf1] at hread
  obtain ⟨hp, _, hs⟩ := positions_of_read hread
  exact ⟨hp, hs⟩

/-- C2, the stated instance: keyframes at times 0 and 1 with positions
`(0, 0, 0)` and `(10, 0, 0)`, sampled at 1/2, give position `(5, 0, 0)`. -/
theorem SampleClip_interpolates_bracketing_pair_witness :
    (SampleClip Libm.approx controller slide (1 / 2) ⟨[], [], []⟩).positions[0]?
      = some ⟨5, 0, 0⟩ := by
  have h := (SampleClip_interpolates_bracketing_pair Libm.approx controller slide (1 / 2)
    ⟨[], [], []⟩ [] [] slideTrack 0 (keyAt 0 0) (keyAt 1 10) rfl (by simp) (by decide)
    (by decide) (by simp [slideTrack, keyAt]) rfl rfl (by norm_num [keyAt])
    (by norm_num [keyAt])).1
  have e : (keyAt 0 0).position + ((keyAt 1 10).position - (keyAt 0 0).position)
      * ((1 / 2 - (keyAt 0 0).time) / ((keyAt 1 10).time - (keyAt 0 0).time))
      = (⟨5, 0, 0⟩ : Vector3) := by
    simp only [keyAt, Vector3.add_def, Vector3.sub_def, Vector3.mul_def]
    norm_num
  rw [e] at h
  exact h

/-- C3, a counterexample to the claim as stated: the track `stutterTrack` is
sorted ascending by time (times 0, 0, 1) with unit rotations, the sample time
0 is at the first keyframe's time, and for no maths library does `SampleClip`
return the first keyframe's pose for its bone: the position returned is that
of the second keyframe, `(5, 0, 0)`. -/
theorem SampleClip_first_keyframe_counterexample :
    stutterTrack.keyframes.Pairwise (fun a b => a.time ≤ b.time)
      ∧ (∀ k ∈ stutterTrack.keyframes, k.rotation.LengthSquared = 1)
      ∧ (0 : ℚ) ≤ (keyAt 0 0).time
      ∧ stutterTrack.keyframes.head? = some (keyAt 0 0)
      ∧ ¬ ∃ m : Libm, (SampleClip m controller stutter 0 ⟨[], [], []⟩).read 0
          = some ((keyAt 0 0).position, (keyAt 0 0).rotation, (keyAt 0 0).scale) := by
  refine ⟨by simp [stutterTrack, keyAt], ?_, by simp [keyAt], rfl, ?_⟩
  · intro k hk
    simp only [stutterTrack, List.mem_cons, List.mem_singleton, List.not_mem_nil,
      or_false] at hk
    rcases hk with rfl | rfl | rfl <;>
      simp [keyAt, Quaternion.Identity, Quaternion.LengthSquared]
  · rintro ⟨m, hm⟩
    have hp := (positions_of_read hm).1
    have e : (SampleClip m controller stutter 0 ⟨[], [], []⟩).positions[0]?
        = some ⟨5, 0, 0⟩ := by
      simp [SampleClip, controller, stutter, stutterTrack, SetSkeleton,
        AnimationController.new, sampleBoneAnimation, findNextIndex, findNextIndexFrom, keyAt,
        bindPose, writeBone, rootBone, Math.Clamp, Math.Min, Math.Max, Vector3.Lerp,
        Vector3.add_def, Vector3.sub_def, Vector3.mul_def]
    rw [e] at hp
    revert hp
    simp [keyAt]

/-- C3, amended: for a track on a bone of the skeleton, which no later track of
the clip animates, whose keyframes are sorted ascending by time with unit
rotations, and a sample time that is before the first keyframe's time, or
equal to it while every later keyframe is strictly later, `SampleClip` returns
for that bone exactly the first keyframe's position, rotation and scale.  The
maths library is assumed to give `sqrt 1 = 1`, `sin 0 = 0` and
`sin (acos d) ≠ 0` for `0 ≤ d ≤ 0.9995`. -/
theorem SampleClip_clamps_to_first_keyframe (m : Libm) (c : AnimationController)
    (clip : AnimationClip) (time : ℚ) (out : BoneTransforms) (pre post : List BoneAnimation)
    (track : BoneAnimation) (k0 : AnimationKeyframe) (rest : List AnimationKeyframe)
    (hsqrt : m.sqrt 1 = 1) (hsin0 : m.sin 0 = 0)
    (hsin : ∀ d : ℚ, 0 ≤ d → d ≤ 9995 / 10000 → m.sin (m.acos d) ≠ 0)
    (hclip : clip.boneAnimations = pre ++ track :: post)
    (hpost : ∀ tr ∈ post, tr.boneIndex ≠ track.boneIndex)
    (hlo : 0 ≤ track.boneIndex) (hhi : track.boneIndex < (c.skeleton.length : Int))
    (hkeys : track.keyframes = k0 :: rest)
    (hsorted : track.keyframes.Pairwise (fun a b => a.time ≤ b.time))
    (hunit : ∀ k ∈ track.keyframes, k.rotation.LengthSquared = 1)
    (ht : time < k0.time ∨ (time = k0.time ∧ ∀ k ∈ rest, k0.time < k.time)) :
    (SampleClip m c clip time out).read track.boneIndex.toNat
      = some (k0.position, k0.rotation, k0.scale) := by
  have _ := hsorted
  have hsize := foldl_sampleBoneAnimation_hasSize m c.skeleton.length time pre
    (bindPose_hasSize c.skeleton)
  rw [read_SampleClip_track m c clip time out pre post track hclip hpost hlo hhi]
  rcases ht with hlt | ⟨heq, hrest⟩
  · apply read_sampleBoneAnimation_first m c.skeleton.length time hsize track k0 rest hlo hhi
      hkeys
    rw [hkeys]
    simp only [findNextIndex, findNextIndexFrom, if_pos hlt]
  · cases rest with
    | nil =>
      apply read_sampleBoneAnimation_first m c.skeleton.length time hsize track k0 [] hlo hhi
        hkeys
      rw [hkeys]
      have hk : ¬ k0.time > time := by rw [heq]; exact lt_irrefl _
      simp only [findNextIndex, findNextIndexFrom, if_neg hk]
    | cons k1 rest2 =>
      have hk : ¬ k0.time > time := by rw [heq]; exact lt_irrefl _
      have hk1 : k1.time > time := by
        rw [heq]; exact hrest k1 (List.mem_cons_self _ _)
      have hnext : findNextIndex track.keyframes time = 0 + 1 := by
        rw [hkeys]
        simp only [findNextIndex, findNextIndexFrom, if_neg hk, if_pos hk1]
      rw [read_sampleBoneAnimation_interp m c.skeleton.length time hsize track 0 k0 k1 hlo hhi
        (by rw [hkeys]; simp) (by rw [hkeys]; simp) hnext]
      have hf : Math.Clamp ((time - k0.time) / (k1.time - k0.time)) 0 1 = 0 := by
        rw [heq, sub_self, zero_div]
        exact Clamp_unit_of_mem 0 (le_refl _) (by norm_num)
      rw [hf, Vector3.Lerp_zero, Vector3.Lerp_zero,
        Quaternion.Slerp_zero m hsqrt hsin0 hsin _ _
          (hunit k0 (by rw [hkeys]; exact List.mem_cons_self _ _))]

/-- C3, amended, at a concrete input: the clip `slide` sampled at time 0, the
time of its first keyframe. -/
theorem SampleClip_clamps_to_first_keyframe_witness :
    (SampleClip Libm.approx controller slide 0 ⟨[], [], []⟩).read 0
      = some ((keyAt 0 0).position, (keyAt 0 0).rotation, (keyAt 0 0).scale) :=
  SampleClip_clamps_to_first_keyframe Libm.approx controller slide 0 ⟨[], [], []⟩ [] []
    slideTrack (keyAt 0 0) [keyAt 1 10] (by norm_num [Libm.approx]) (by simp [Libm.approx])
    (by intro d _ h1; simp only [Libm.approx]; intro e; linarith)
    rfl (by simp) (by decide) (by decide) rfl (by simp [slideTrack, keyAt])
    (by
      intro k hk
      simp only [slideTrack, List.mem_cons, List.mem_singleton, List.not_mem_nil,
        or_false] at hk
      rcases hk with rfl | rfl <;> simp [keyAt, Quaternion.Identity, Quaternion.LengthSquared])
    (Or.inr ⟨by simp [keyAt], by simp [keyAt]⟩)

/-- The loop "Return bind pose" of `GetBoneTransforms` yields the bind pose. -/
theorem foldl_bind_pose_eq (skeleton : List Bone) (o : BoneTransforms)
    (ho : o.HasSize skeleton.length) :
    (List.range skeleton.length).foldl
        (fun acc i =>
          writeBone acc i ((skeleton.map (fun b => b.position)).getD i default)
            ((skeleton.map (fun b => b.rotation)).getD i default)
            ((skeleton.map (fun b => b.scale)).getD i default))
        o
      = bindPose skeleton := by
  obtain ⟨hsize, hread⟩ := read_foldl_writeBone_range
    (fun i => (skeleton.map (fun b => b.position)).getD i default)
    (fun i => (skeleton.map (fun b => b.rotation)).getD i default)
    (fun i => (skeleton.map (fun b => b.scale)).getD i default) o skeleton.length ho
    skeleton.length (le_refl _)
  apply eq_of_read_eq hsize (bindPose_hasSize skeleton)
  intro j hj
  rw [hread j hj]
  have hb : skeleton[j]? = some (skeleton[j]) := List.getElem?_eq_getElem hj
  rw [read_bindPose skeleton j _ hb]
  simp [List.getElem?_map, hb]

/-- C4: for a bone `i` of the skeleton that no track of the clip animates (a
track with no keyframes, or with a bone index that is not `i`, does not
animate it), `SampleClip` returns the bone's bind position, rotation and
scale at every time; and when no current clip is set, or the current clip is
not in the library, `GetBoneTransforms` returns the bind pose for every
bone. -/
theorem unanimated_bone_reports_bind_pose (m : Libm) (c : AnimationController)
    (clip : AnimationClip) (time : ℚ) (out : BoneTransforms) (i : Nat) (bone : Bone)
    (hbone : c.skeleton[i]? = some bone)
    (hnone : ∀ tr ∈ clip.boneAnimations, tr.keyframes ≠ [] → tr.boneIndex ≠ (i : Int)) :
    (SampleClip m c clip time out).read i = some (bone.position, bone.rotation, bone.scale)
      ∧ (c.currentClipName = "" ∨ HasClip c c.currentClipName = false →
          ∃ res, GetBoneTransforms m c out = some res
            ∧ ∀ (j : Nat) (b : Bone), c.skeleton[j]? = some b →
                res.read j = some (b.position, b.rotation, b.scale)) := by
  have hne : ¬ c.skeleton.isEmpty = true := by
    intro e
    rw [List.isEmpty_iff] at e
    rw [e] at hbone
    simp at hbone
  constructor
  · unfold SampleClip
    rw [if_neg hne, read_foldl_sampleBoneAnimation_of_ne m _ time _ _ i hnone]
    exact read_bindPose c.skeleton i bone hbone
  · intro hcur
    refine ⟨bindPose c.skeleton, ?_, fun j b hb => read_bindPose c.skeleton j b hb⟩
    unfold GetBoneTransforms
    have hcond : c.currentClipName = "" ∨ ¬ HasClip c c.currentClipName = true := by
      rcases hcur with h | h
      · exact Or.inl h
      · exact Or.inr (by simp [h])
    rw [if_neg hne]
    dsimp only []
    rw [if_pos hcond, foldl_bind_pose_eq c.skeleton _
      ⟨resize_length _ _ _, resize_length _ _ _, resize_length _ _ _⟩]

/-- C4 at a concrete input: the clip `slide` animates bone 0 only; in a
skeleton of two bones the second one keeps its bind pose. -/
theorem unanimated_bone_reports_bind_pose_witness :
    (SampleClip Libm.approx (SetSkeleton AnimationController.new [rootBone, rootBone]) slide
        (1 / 2) ⟨[], [], []⟩).read 1
        = some (rootBone.position, rootBone.rotation, rootBone.scale)
      ∧ ((SetSkeleton AnimationController.new [rootBone, rootBone]).currentClipName = ""
          ∨ HasClip (SetSkeleton AnimationController.new [rootBone, rootBone])
              (SetSkeleton AnimationController.new [rootBone, rootBone]).currentClipName = false →
          ∃ res, GetBoneTransforms Libm.approx
              (SetSkeleton AnimationController.new [rootBone, rootBone]) ⟨[], [], []⟩ = some res
            ∧ ∀ (j : Nat) (b : Bone),
                (SetSkeleton AnimationController.new [rootBone, rootBone]).skeleton[j]? = some b →
                res.read j = some (b.position, b.rotation, b.scale)) :=
  unanimated_bone_reports_bind_pose Libm.approx
    (SetSkeleton AnimationController.new [rootBone, rootBone]) slide (1 / 2) ⟨[], [], []⟩ 1
    rootBone rfl (by
      intro tr htr _
      simp only [slide, List.mem_singleton] at htr
      subst htr
      decide)

/-! ## The blender (`BlendTransforms`) -/

/-- C5, a counterexample to the claim as stated: for the unit quaternions
`(0, 0, 0, 1)` and `(0, 0, 0, -1)`, whose dot product is negative, there is no
maths library for which `BlendTransforms` with `blend = 1` returns the second
rotation component for component: the `w` it returns is positive. -/
theorem BlendTransforms_one_counterexample :
    (⟨0, 0, 0, 1⟩ : Quaternion).LengthSquared = 1
      ∧ (⟨0, 0, 0, -1⟩ : Quaternion).LengthSquared = 1
      ∧ ¬ ∃ m : Libm,
          (BlendTransforms m Vector3.Zero ⟨0, 0, 0, 1⟩ Vector3.One Vector3.Zero ⟨0, 0, 0, -1⟩
            Vector3.One 1).2.1 = ⟨0, 0, 0, -1⟩ := by
  refine ⟨by norm_num [Quaternion.LengthSquared], by norm_num [Quaternion.LengthSquared], ?_⟩
  rintro ⟨m, h⟩
  have hw := congrArg Quaternion.w h
  simp only [BlendTransforms, Quaternion.Slerp, Quaternion.Dot, Quaternion.mulScalar,
    Quaternion.Lerp, Quaternion.Normalize, Quaternion.Length] at hw
  norm_num at hw
  split_ifs at hw with hpos
  · have : 0 < (m.sqrt 1)⁻¹ := inv_pos.mpr hpos
    linarith
  · norm_num at hw

/-- C5, amended: for poses A and B with unit rotations, `BlendTransforms` with
`blend = 1` returns B's position and scale exactly, and as rotation B's
rotation when the dot product of the two rotations is not negative, and B's
rotation with every component negated when it is negative.  The maths library
is assumed to give `sqrt 1 = 1`, `sin 0 = 0` and `sin (acos d) ≠ 0` for
`0 ≤ d ≤ 0.9995`. -/
theorem BlendTransforms_one (m : Libm) (hsqrt : m.sqrt 1 = 1) (hsin0 : m.sin 0 = 0)
    (hsin : ∀ d : ℚ, 0 ≤ d → d ≤ 9995 / 10000 → m.sin (m.acos d) ≠ 0)
    (posA : Vector3) (rotA : Quaternion) (scaleA : Vector3)
    (posB : Vector3) (rotB : Quaternion) (scaleB : Vector3)
    (hA : rotA.LengthSquared = 1) (hB : rotB.LengthSquared = 1) :
    BlendTransforms m posA rotA scaleA posB rotB scaleB 1
      = (posB,
          if Quaternion.Dot rotA rotB < 0 then
            (⟨-rotB.x, -rotB.y, -rotB.z, -rotB.w⟩ : Quaternion)
          else rotB,
          scaleB) := by
  have _ := hA
  unfold BlendTransforms
  rw [Vector3.Lerp_one, Vector3.Lerp_one, Quaternion.Slerp_one m hsqrt hsin0 hsin rotA rotB hB]
  simp [Quaternion.mulScalar]

/-- C5, amended, at concrete inputs: two rotations with dot product `-4/5`,
which `Slerp` takes through its spherical branch; the rotation returned is the
negated one. -/
theorem BlendTransforms_one_witness :
    BlendTransforms Libm.approx ⟨1, 2, 3⟩ ⟨3 / 5, 0, 0, 4 / 5⟩ ⟨1, 1, 1⟩ ⟨4, 5, 6⟩
        ⟨0, 0, 0, -1⟩ ⟨2, 2, 2⟩ 1
      = (⟨4, 5, 6⟩,
          if Quaternion.Dot ⟨3 / 5, 0, 0, 4 / 5⟩ ⟨0, 0, 0, -1⟩ < 0 then
            (⟨-0, -0, -0, -(-1)⟩ : Quaternion)
          else ⟨0, 0, 0, -1⟩,
          ⟨2, 2, 2⟩) :=
  BlendTransforms_one Libm.approx (by norm_num [Libm.approx]) (by simp [Libm.approx])
    (by intro d _ h1; simp only [Libm.approx]; intro e; linarith)
    ⟨1, 2, 3⟩ ⟨3 / 5, 0, 0, 4 / 5⟩ ⟨1, 1, 1⟩ ⟨4, 5, 6⟩ ⟨0, 0, 0, -1⟩ ⟨2, 2, 2⟩
    (by norm_num [Quaternion.LengthSquared]) (by norm_num [Quaternion.LengthSquared])

/-- C6: for poses A and B with unit rotations, `BlendTransforms` with
`blend = 0` returns A's position, rotation and scale exactly, in the
normalised-lerp branch and in the spherical branch of `Slerp` alike.  The
maths library is assumed to give `sqrt 1 = 1`, `sin 0 = 0` and
`sin (acos d) ≠ 0` for `0 ≤ d ≤ 0.9995`. -/
theorem BlendTransforms_zero (m : Libm) (hsqrt : m.sqrt 1 = 1) (hsin0 : m.sin 0 = 0)
    (hsin : ∀ d : ℚ, 0 ≤ d → d ≤ 9995 / 10000 → m.sin (m.acos d) ≠ 0)
    (posA : Vector3) (rotA : Quaternion) (scaleA : Vector3)
    (posB : Vector3) (rotB : Quaternion) (scaleB : Vector3)
    (hA : rotA.LengthSquared = 1) (hB : rotB.LengthSquared = 1) :
    BlendTransforms m posA rotA scaleA posB rotB scaleB 0 = (posA, rotA, scaleA) := by
  have _ := hB
  unfold BlendTransforms
  rw [Vector3.Lerp_zero, Vector3.Lerp_zero, Quaternion.Slerp_zero m hsqrt hsin0 hsin rotA rotB hA]

/-- C6 at concrete inputs: a pair of rotations with dot product 0, which
`Slerp` takes through its spherical branch. -/
theorem BlendTransforms_zero_witness :
    BlendTransforms Libm.approx ⟨1, 2, 3⟩ ⟨3 / 5, 0, 0, 4 / 5⟩ ⟨1, 1, 1⟩ ⟨4, 5, 6⟩
        ⟨4 / 5, 0, 0, -3 / 5⟩ ⟨2, 2, 2⟩ 0
      = (⟨1, 2, 3⟩, ⟨3 / 5, 0, 0, 4 / 5⟩, ⟨1, 1, 1⟩) :=
  BlendTransforms_zero Libm.approx (by norm_num [Libm.approx]) (by simp [Libm.approx])
    (by intro d _ h1; simp only [Libm.approx]; intro e; linarith)
    ⟨1, 2, 3⟩ ⟨3 / 5, 0, 0, 4 / 5⟩ ⟨1, 1, 1⟩ ⟨4, 5, 6⟩ ⟨4 / 5, 0, 0, -3 / 5⟩ ⟨2, 2, 2⟩
    (by norm_num [Quaternion.LengthSquared]) (by norm_num [Quaternion.LengthSquared])

/-! ## `GetBoneTransforms` -/

theorem SampleClip_hasSize (m : Libm) (c : AnimationController) (clip : AnimationClip)
    (time : ℚ) (out : BoneTransforms) (hne : c.skeleton ≠ []) :
    (SampleClip m c clip time out).HasSize c.skeleton.length := by
  unfold SampleClip
  rw [if_neg (by simpa [List.isEmpty_iff] using hne)]
  exact foldl_sampleBoneAnimation_hasSize m _ time _ (bindPose_hasSize c.skeleton)

/-- With a non-empty skeleton `SampleClip` overwrites whatever the output
vectors held on entry. -/
theorem SampleClip_out_irrelevant (m : Libm) (c : AnimationController) (clip : AnimationClip)
    (time : ℚ) (out1 out2 : BoneTransforms) (hne : c.skeleton ≠ []) :
    SampleClip m c clip time out1 = SampleClip m c clip time out2 := by
  unfold SampleClip
  rw [if_neg (by simpa [List.isEmpty_iff] using hne),
    if_neg (by simpa [List.isEmpty_iff] using hne)]

/-- C7: for a controller with a non-empty skeleton whose current clip is set
and in the library: when a cross-fade is active (fade target set and
`blendDuration > 0`) and the fade target is in the library, `GetBoneTransforms`
returns for every bone `i` the value
`BlendTransforms(SampleClip(currentClip, currentTime)[i], SampleClip(nextClip, 0)[i],
Clamp(blendTime / blendDuration, 0, 1))`; when no cross-fade is active it
returns `SampleClip(currentClip, currentTime)`. -/
theorem GetBoneTransforms_samples_and_blends (m : Libm) (c : AnimationController)
    (out : BoneTransforms) (cur : AnimationClip)
    (hskel : c.skeleton ≠ []) (hset : c.currentClipName ≠ "")
    (hcur : c.clips.lookup c.currentClipName = some cur) :
    (∀ nxt : AnimationClip, c.clips.lookup c.nextClipName = some nxt →
        c.nextClipName ≠ "" ∧ c.blendDuration > 0 →
        ∃ res, GetBoneTransforms m c out = some res
          ∧ ∀ i, i < c.skeleton.length →
            ∃ p1 r1 s1 p2 r2 s2,
              (SampleClip m c cur c.currentTime ⟨[], [], []⟩).read i = some (p1, r1, s1)
                ∧ (SampleClip m c nxt 0 ⟨[], [], []⟩).read i = some (p2, r2, s2)
                ∧ res.read i
                  = some (BlendTransforms m p1 r1 s1 p2 r2 s2
                      (Math.Clamp (c.blendTime / c.blendDuration) 0 1)))
      ∧ (¬ (c.nextClipName ≠ "" ∧ c.blendDuration > 0) →
          GetBoneTransforms m c out = some (SampleClip m c cur c.currentTime ⟨[], [], []⟩)) := by
  have hne : ¬ c.skeleton.isEmpty = true := by simpa [List.isEmpty_iff] using hskel
  have hhas : ¬ (c.currentClipName = "" ∨ ¬ HasClip c c.currentClipName = true) := by
    simp [HasClip, hcur, hset]
  constructor
  · intro nxt hnxt hfade
    unfold GetBoneTransforms
    rw [if_neg hne]
    dsimp only []
    rw [if_neg hhas]
    simp only [hcur, hnxt, if_pos hfade]
    obtain ⟨_, hread⟩ := read_foldl_writeBone_range
      (fun i => (BlendTransforms m
        ((SampleClip m c cur c.currentTime ⟨[], [], []⟩).positions.getD i default)
        ((SampleClip m c cur c.currentTime ⟨[], [], []⟩).rotations.getD i default)
        ((SampleClip m c cur c.currentTime ⟨[], [], []⟩).scales.getD i default)
        ((SampleClip m c nxt 0 ⟨[], [], []⟩).positions.getD i default)
        ((SampleClip m c nxt 0 ⟨[], [], []⟩).rotations.getD i default)
        ((SampleClip m c nxt 0 ⟨[], [], []⟩).scales.getD i default)
        (Math.Clamp (c.blendTime / c.blendDuration) 0 1)).1)
      (fun i => (BlendTransforms m
        ((SampleClip m c cur c.currentTime ⟨[], [], []⟩).positions.getD i default)
        ((SampleClip m c cur c.currentTime ⟨[], [], []⟩).rotations.getD i default)
        ((SampleClip m c cur c.currentTime ⟨[], [], []⟩).scales.getD i default)
        ((SampleClip m c nxt 0 ⟨[], [], []⟩).positions.getD i default)
        ((SampleClip m c nxt 0 ⟨[], [], []⟩).rotations.getD i default)
        ((SampleClip m c nxt 0 ⟨[], [], []⟩).scales.getD i default)
        (Math.Clamp (c.blendTime / c.blendDuration) 0 1)).2.1)
      (fun i => (BlendTransforms m
        ((SampleClip m c cur c.currentTime ⟨[], [], []⟩).positions.getD i default)
        ((SampleClip m c cur c.currentTime ⟨[], [], []⟩).rotations.getD i default)
        ((SampleClip m c cur c.currentTime ⟨[], [], []⟩).scales.getD i default)
        ((SampleClip m c nxt 0 ⟨[], [], []⟩).positions.getD i default)
        ((SampleClip m c nxt 0 ⟨[], [], []⟩).rotations.getD i default)
        ((SampleClip m c nxt 0 ⟨[], [], []⟩).scales.getD i default)
        (Math.Clamp (c.blendTime / c.blendDuration) 0 1)).2.2)
      ⟨resize out.positions c.skeleton.length default,
        resize out.rotations c.skeleton.length default,
        resize out.scales c.skeleton.length default⟩
      c.skeleton.length ⟨resize_length _ _ _, resize_length _ _ _, resize_length _ _ _⟩
      c.skeleton.length (le_refl _)
    refine ⟨_, rfl, fun i hi => ?_⟩
    obtain ⟨p1, r1, s1, e1⟩ := read_eq_some_of_hasSize
      (SampleClip_hasSize m c cur c.currentTime ⟨[], [], []⟩ hskel) hi
    obtain ⟨p2, r2, s2, e2⟩ := read_eq_some_of_hasSize
      (SampleClip_hasSize m c nxt 0 ⟨[], [], []⟩ hskel) hi
    refine ⟨p1, r1, s1, p2, r2, s2, e1, e2, ?_⟩
    have hr := hread i hi
    obtain ⟨a1, a2, a3⟩ := positions_of_read e1
    obtain ⟨b1, b2, b3⟩ := positions_of_read e2
    have c1 : (SampleClip m c cur c.currentTime ⟨[], [], []⟩).positions.getD i default = p1 := by
      simp only [List.getD_eq_getElem?_getD, a1, Option.getD_some]
    have c2 : (SampleClip m c cur c.currentTime ⟨[], [], []⟩).rotations.getD i default = r1 := by
      simp only [List.getD_eq_getElem?_getD, a2, Option.getD_some]
    have c3 : (SampleClip m c cur c.currentTime ⟨[], [], []⟩).scales.getD i default = s1 := by
      simp only [List.getD_eq_getElem?_getD, a3, Option.getD_some]
    have d1 : (SampleClip m c nxt 0 ⟨[], [], []⟩).positions.getD i default = p2 := by
      simp only [List.getD_eq_getElem?_getD, b1, Option.getD_some]
    have d2 : (SampleClip m c nxt 0 ⟨[], [], []⟩).rotations.getD i default = r2 := by
      simp only [List.getD_eq_getElem?_getD, b2, Option.getD_some]
    have d3 : (SampleClip m c nxt 0 ⟨[], [], []⟩).scales.getD i default = s2 := by
      simp only [List.getD_eq_getElem?_getD, b3, Option.getD_some]
    beta_reduce at hr
    rw [c1, c2, c3, d1, d2, d3] at hr
    exact hr
  · intro hfade
    unfold GetBoneTransforms
    rw [if_neg hne]
    dsimp only []
    rw [if_neg hhas]
    simp only [hcur, if_neg hfade]
    rw [SampleClip_out_irrelevant m c cur c.currentTime _ ⟨[], [], []⟩ hskel]

theorem playingA_eq :
    playingA = { AddClip (AddClip controller "A" slide) "B" stutter with
      currentClipName := "A", currentTime := 0, state := AnimationState.Playing,
      nextClipName := "", blendTime := 0 } := by
  decide

theorem fading_eq :
    fading = { playingA with nextClipName := "B", blendTime := 0, blendDuration := 1 / 2 } := by
  have h1 : HasClip playingA "B" = true := by decide
  have h2 : playingA.state = AnimationState.Playing := by decide
  simp [fading, Play, h1, h2]

/-- C7 at a concrete input: the controller `fading`, which plays "A" and
cross-fades to "B". -/
theorem GetBoneTransforms_samples_and_blends_witness :
    ∃ res, GetBoneTransforms Libm.approx fading ⟨[], [], []⟩ = some res
      ∧ ∀ i, i < fading.skeleton.length →
        ∃ p1 r1 s1 p2 r2 s2,
          (SampleClip Libm.approx fading slide fading.currentTime ⟨[], [], []⟩).read i
              = some (p1, r1, s1)
            ∧ (SampleClip Libm.approx fading stutter 0 ⟨[], [], []⟩).read i = some (p2, r2, s2)
            ∧ res.read i
              = some (BlendTransforms Libm.approx p1 r1 s1 p2 r2 s2
                  (Math.Clamp (fading.blendTime / fading.blendDuration) 0 1)) :=
  (GetBoneTransforms_samples_and_blends Libm.approx fading ⟨[], [], []⟩ slide
    (by rw [fading_eq]; decide) (by rw [fading_eq]; decide) (by rw [fading_eq]; decide)).1
    stutter (by rw [fading_eq]; decide)
    ⟨by rw [fading_eq]; decide, by rw [fading_eq]; norm_num⟩

/-! ## Playback control (`Play`, `CrossFade`) -/

/-- C8: `Play` and `CrossFade` with a clip name that is not in the library
return the controller unchanged, whatever the fade time: no field of the
playback state is written. -/
theorem Play_missing_clip_is_noop (c : AnimationController) (clipName : String) (fadeTime : ℚ)
    (hmissing : HasClip c clipName = false) :
    Play c clipName fadeTime = c ∧ CrossFade c clipName fadeTime = c := by
  have h : Play c clipName fadeTime = c := by
    unfold Play
    rw [if_pos (by simp [hmissing])]
  exact ⟨h, h⟩

/-- C8 at a concrete input: `playingA` holds no clip named "C". -/
theorem Play_missing_clip_is_noop_witness :
    Play playingA "C" (1 / 2) = playingA ∧ CrossFade playingA "C" (1 / 2) = playingA :=
  Play_missing_clip_is_noop playingA "C" (1 / 2) (by decide)

/-- C9: for a clip name in the library, when `fadeTime = 0` or the state is
not `Playing`, after `Play` the current clip is that clip, `currentTime` is 0,
the state is `Playing` and the fade target is empty (and `blendTime` is 0),
whatever fade was in progress before. -/
theorem Play_switches_immediately (c : AnimationController) (clipName : String) (fadeTime : ℚ)
    (hclip : HasClip c clipName = true)
    (himm : fadeTime = 0 ∨ c.state ≠ AnimationState.Playing) :
    (Play c clipName fadeTime).currentClipName = clipName
      ∧ (Play c clipName fadeTime).currentTime = 0
      ∧ (Play c clipName fadeTime).state = AnimationState.Playing
      ∧ (Play c clipName fadeTime).nextClipName = ""
      ∧ (Play c clipName fadeTime).blendTime = 0 := by
  have hcond : ¬ (fadeTime > 0 ∧ c.state = AnimationState.Playing) := by
    rintro ⟨h1, h2⟩
    rcases himm with h | h
    · rw [h] at h1; exact lt_irrefl _ h1
    · exact h h2
  unfold Play
  rw [if_neg (by simp [hclip]), if_neg hcond]
  exact ⟨rfl, rfl, rfl, rfl, rfl⟩

/-- C9 at a concrete input: `Play("A", 0)` on the cross-fading controller
`fading`. -/
theorem Play_switches_immediately_witness :
    (Play fading "A" 0).currentClipName = "A"
      ∧ (Play fading "A" 0).currentTime = 0
      ∧ (Play fading "A" 0).state = AnimationState.Playing
      ∧ (Play fading "A" 0).nextClipName = ""
      ∧ (Play fading "A" 0).blendTime = 0 :=
  Play_switches_immediately fading "A" 0 (by rw [fading_eq]; decide) (Or.inl rfl)

/-- C10: in state `Playing`, for a clip name in the library and `fadeTime > 0`,
`Play` (and `CrossFade`) writes the fade target, `blendTime = 0` and
`blendDuration = fadeTime` and nothing else, so the current clip,
`currentTime` and the state are as before; and of two such calls in a row the
last one decides the result. -/
theorem Play_starts_cross_fade (c : AnimationController) (clipB clipC : String) (f1 f2 : ℚ)
    (hplaying : c.state = AnimationState.Playing)
    (hB : HasClip c clipB = true) (hC : HasClip c clipC = true)
    (h1 : f1 > 0) (h2 : f2 > 0) :
    Play c clipB f1 = { c with nextClipName := clipB, blendTime := 0, blendDuration := f1 }
      ∧ CrossFade c clipB f1
        = { c with nextClipName := clipB, blendTime := 0, blendDuration := f1 }
      ∧ (Play c clipB f1).currentClipName = c.currentClipName
      ∧ (Play c clipB f1).currentTime = c.currentTime
      ∧ (Play c clipB f1).state = c.state
      ∧ Play (Play c clipB f1) clipC f2 = Play c clipC f2 := by
  have key : ∀ (d : AnimationController) (name : String) (f : ℚ),
      d.state = AnimationState.Playing → HasClip d name = true → f > 0 →
      Play d name f = { d with nextClipName := name, blendTime := 0, blendDuration := f } := by
    intro d name f hd hn hf
    unfold Play
    rw [if_neg (by simp [hn]), if_pos ⟨hf, hd⟩]
  have e1 := key c clipB f1 hplaying hB h1
  refine ⟨e1, e1, by rw [e1], by rw [e1], by rw [e1], ?_⟩
  rw [key c clipC f2 hplaying hC h2, e1]
  exact key _ clipC f2 hplaying hC h2

/-- C10 at a concrete input: `Play("B", 1/2)` then `Play("A", 1/3)` on
`playingA`. -/
theorem Play_starts_cross_fade_witness :
    Play playingA "B" (1 / 2)
        = { playingA with nextClipName := "B", blendTime := 0, blendDuration := 1 / 2 }
      ∧ CrossFade playingA "B" (1 / 2)
        = { playingA with nextClipName := "B", blendTime := 0, blendDuration := 1 / 2 }
      ∧ (Play playingA "B" (1 / 2)).currentClipName = playingA.currentClipName
      ∧ (Play playingA "B" (1 / 2)).currentTime = playingA.currentTime
      ∧ (Play playingA "B" (1 / 2)).state = playingA.state
      ∧ Play (Play playingA "B" (1 / 2)) "A" (1 / 3) = Play playingA "A" (1 / 3) :=
  Play_starts_cross_fade playingA "B" "A" (1 / 2) (1 / 3) (by decide) (by decide) (by decide)
    (by norm_num) (by norm_num)

/-! ## Playback control (`Stop`, `Pause`, `Resume`) -/

/-- C11, evaluated on the code: `Stop` sets the state to `Stopped` and
`currentTime` to 0 and writes nothing else, so the fade target, `blendTime`
and `blendDuration` are as before.  On the controller `fading` after
`Update(1/4)` (a cross-fade from "A" to "B", half way) the fade target is
still "B" after `Stop`, the code's fade test still holds, and
`GetBoneTransforms` returns for bone 0 the blend `(5/2, 0, 0)` of the two
clips, not the pose `(0, 0, 0)` of the current clip alone. -/
theorem Stop_leaves_cross_fade_in_progress (c : AnimationController) :
    (Stop c).state = AnimationState.Stopped
      ∧ (Stop c).currentTime = 0
      ∧ (Stop c).nextClipName = c.nextClipName
      ∧ (Stop c).blendTime = c.blendTime
      ∧ (Stop c).blendDuration = c.blendDuration
      ∧ (Stop (Update fading (1 / 4))).nextClipName = "B"
      ∧ (Stop (Update fading (1 / 4))).blendDuration > 0
      ∧ GetBoneTransforms Libm.approx (Stop (Update fading (1 / 4))) ⟨[], [], []⟩
          = some ⟨[⟨5 / 2, 0, 0⟩], [Quaternion.Identity], [Vector3.One]⟩
      ∧ SampleClip Libm.approx (Stop (Update fading (1 / 4))) slide 0 ⟨[], [], []⟩
          = ⟨[⟨0, 0, 0⟩], [Quaternion.Identity], [Vector3.One]⟩ := by
  refine ⟨rfl, rfl, rfl, rfl, rfl, ?_, ?_, ?_, ?_⟩
  · with_unfolding_all decide
  · with_unfolding_all decide
  · with_unfolding_all decide
  · with_unfolding_all decide

/-- C12: `Pause` changes the controller only in state `Playing`, and then only
the state, to `Paused`; `Resume` changes it only in state `Paused`, and then
only the state, to `Playing`; so `Resume (Pause c) = c` for a playing `c` and
`Pause (Resume c) = c` for a paused `c`. -/
theorem Pause_Resume_toggle (c : AnimationController) :
    (c.state = AnimationState.Playing → Pause c = { c with state := AnimationState.Paused })
      ∧ (c.state ≠ AnimationState.Playing → Pause c = c)
      ∧ (c.state = AnimationState.Paused → Resume c = { c with state := AnimationState.Playing })
      ∧ (c.state ≠ AnimationState.Paused → Resume c = c)
      ∧ (c.state = AnimationState.Playing → Resume (Pause c) = c)
      ∧ (c.state = AnimationState.Paused → Pause (Resume c) = c) := by
  refine ⟨?_, ?_, ?_, ?_, ?_, ?_⟩
  · intro h; simp [Pause, h]
  · intro h; simp [Pause, h]
  · intro h; simp [Resume, h]
  · intro h; simp [Resume, h]
  · intro h
    cases c
    simp only at h
    subst h
    simp [Pause, Resume]
  · intro h
    cases c
    simp only at h
    subst h
    simp [Pause, Resume]

/-- C12 at concrete inputs: the playing controller `playingA` and the paused
controller `Pause playingA`. -/
theorem Pause_Resume_toggle_witness :
    Resume (Pause playingA) = playingA ∧ Pause (Resume (Pause playingA)) = Pause playingA :=
  ⟨(Pause_Resume_toggle playingA).2.2.2.2.1 (by decide),
    (Pause_Resume_toggle (Pause playingA)).2.2.2.2.2 (by decide)⟩

/-! ## `Update` -/

/-- C13: in a state other than `Playing` (`Stopped`, `Paused` or `Idle`),
`Update` returns the controller unchanged, whatever `deltaTime` is: every
field of the playback state is as before. -/
theorem Update_not_playing_is_noop (c : AnimationController) (deltaTime : ℚ)
    (hstate : c.state ≠ AnimationState.Playing) : Update c deltaTime = c := by
  unfold Update
  rw [if_pos hstate]

/-- C13 at a concrete input: the paused controller `Pause fading`. -/
theorem Update_not_playing_is_noop_witness : Update (Pause fading) (1 / 2) = Pause fading :=
  Update_not_playing_is_noop (Pause fading) (1 / 2) (by with_unfolding_all decide)

end AnimationController

/-! ## Lemmas on `fmod` -/

/-- For `x ≥ d > 0`, `fmod x d` is the remainder of `x` modulo `d`: it lies in
`[0, d)` and differs from `x` by a whole multiple of `d`. -/
theorem fmod_of_pos (x d : ℚ) (hd : 0 < d) (hx : d ≤ x) :
    0 ≤ fmod x d ∧ fmod x d < d ∧ ∃ n : ℕ, x = n * d + fmod x d := by
  have hq : 0 ≤ x / d := div_nonneg (le_trans (le_of_lt hd) hx) (le_of_lt hd)
  have hfl : ((⌊x / d⌋ : ℤ) : ℚ) ≤ x / d := Int.floor_le _
  have hlt : x / d < ((⌊x / d⌋ : ℤ) : ℚ) + 1 := Int.lt_floor_add_one _
  have h1 : ((⌊x / d⌋ : ℤ) : ℚ) * d ≤ x := by
    have := mul_le_mul_of_nonneg_right hfl (le_of_lt hd)
    rwa [div_mul_cancel₀ x (ne_of_gt hd)] at this
  have h2 : x < (((⌊x / d⌋ : ℤ) : ℚ) + 1) * d := by
    have := mul_lt_mul_of_pos_right hlt hd
    rwa [div_mul_cancel₀ x (ne_of_gt hd)] at this
  have hn : 0 ≤ ⌊x / d⌋ := Int.floor_nonneg.mpr hq
  unfold fmod
  rw [if_pos hq]
  refine ⟨by linarith, by linarith, ⟨⌊x / d⌋.toNat, ?_⟩⟩
  have hcast : ((⌊x / d⌋.toNat : ℕ) : ℚ) = ((⌊x / d⌋ : ℤ) : ℚ) := by
    have := Int.toNat_of_nonneg hn
    exact_mod_cast this
  rw [hcast]
  ring

namespace AnimationController

open Examples

/-- C14: for a controller in state `Playing` with no fade in progress whose
current clip is set, in the library, of duration `d > 0` and looping (by the
clip's flag or by the controller's), and a `deltaTime` with
`currentTime + deltaTime * playbackSpeed ≥ d`, after `Update` the state is
still `Playing` and `currentTime` is `fmod (currentTime + deltaTime * speed) d`,
the remainder modulo `d`: it lies in `[0, d)` and differs from
`currentTime + deltaTime * speed` by a whole multiple of `d`. -/
theorem Update_wraps_looping_clip (c : AnimationController) (deltaTime : ℚ)
    (clip : AnimationClip)
    (hplaying : c.state = AnimationState.Playing) (hset : c.currentClipName ≠ "")
    (hclip : c.clips.lookup c.currentClipName = some clip)
    (hnofade : ¬ (c.nextClipName ≠ "" ∧ c.blendDuration > 0))
    (hd : clip.duration > 0) (hloop : clip.looping = true ∨ c.looping = true)
    (hover : c.currentTime + deltaTime * c.playbackSpeed ≥ clip.duration) :
    (Update c deltaTime).state = AnimationState.Playing
      ∧ (Update c deltaTime).currentTime
        = fmod (c.currentTime + deltaTime * c.playbackSpeed) clip.duration
      ∧ 0 ≤ (Update c deltaTime).currentTime
      ∧ (Update c deltaTime).currentTime < clip.duration
      ∧ ∃ n : ℕ, c.currentTime + deltaTime * c.playbackSpeed
          = n * clip.duration + (Update c deltaTime).currentTime := by
  have hhas : ¬ (c.currentClipName = "" ∨ ¬ HasClip c c.currentClipName = true) := by
    simp [HasClip, hclip, hset]
  have hupd : Update c deltaTime
      = { c with
          currentTime := fmod (c.currentTime + deltaTime * c.playbackSpeed) clip.duration } := by
    unfold Update
    rw [if_neg (not_not.mpr hplaying), if_neg hhas]
    simp only [hclip]
    rw [if_pos hover, if_pos hloop, if_neg hnofade]
  obtain ⟨h0, h1, hn⟩ := fmod_of_pos _ _ hd hover
  rw [hupd]
  exact ⟨hplaying, rfl, h0, h1, hn⟩

/-- C14, the stated instance: a looping clip of duration 2, `currentTime` 0,
speed 1: `Update(5/2)` gives `currentTime = 1/2` in state `Playing`. -/
theorem Update_wraps_looping_clip_witness :
    (Update playingLoop (5 / 2)).state = AnimationState.Playing
      ∧ (Update playingLoop (5 / 2)).currentTime = 1 / 2 := by
  have h := Update_wraps_looping_clip playingLoop (5 / 2) loopClip (by decide) (by decide)
    (by decide) (by decide) (by with_unfolding_all decide) (by decide)
    (by with_unfolding_all decide)
  refine ⟨h.1, h.2.1.trans ?_⟩
  with_unfolding_all decide

/-- C15, a counterexample to the claim as stated, its own instance: a newly
constructed controller, `AddClip` of a clip with `looping = false` and
duration 1, `Play`, then `Update(3/2)`: `currentTime` is `1/2`, not 1, and
the state is `Playing`, not `Stopped`, because the controller-level looping
flag is `true` in a newly constructed controller. -/
theorem Update_non_looping_clip_counterexample :
    playingOnce = Play (AddClip AnimationController.new "O" onceClip) "O" 0
      ∧ onceClip.looping = false
      ∧ onceClip.duration = 1
      ∧ playingOnce.currentTime + 3 / 2 * playingOnce.playbackSpeed ≥ onceClip.duration
      ∧ (Update playingOnce (3 / 2)).currentTime = 1 / 2
      ∧ (Update playingOnce (3 / 2)).currentTime ≠ onceClip.duration
      ∧ (Update playingOnce (3 / 2)).state = AnimationState.Playing := by
  refine ⟨rfl, rfl, rfl, ?_, ?_, ?_, ?_⟩ <;> with_unfolding_all decide

/-- C15, amended: for a controller in state `Playing` whose current clip is
set, in the library, of duration `d`, with the clip's looping flag and the
controller's looping flag both false, and with no cross-fade that completes
in this call, and a `deltaTime` with
`currentTime + deltaTime * playbackSpeed ≥ d`, after `Update` `currentTime`
is `d` and the state is `Stopped`. -/
theorem Update_stops_non_looping_clip (c : AnimationController) (deltaTime : ℚ)
    (clip : AnimationClip)
    (hplaying : c.state = AnimationState.Playing) (hset : c.currentClipName ≠ "")
    (hclip : c.clips.lookup c.currentClipName = some clip)
    (hclipLoop : clip.looping = false) (hctlLoop : c.looping = false)
    (hnocommit : ¬ (c.nextClipName ≠ "" ∧ c.blendDuration > 0
      ∧ c.blendTime + deltaTime ≥ c.blendDuration))
    (hover : c.currentTime + deltaTime * c.playbackSpeed ≥ clip.duration) :
    (Update c deltaTime).currentTime = clip.duration
      ∧ (Update c deltaTime).state = AnimationState.Stopped := by
  have hhas : ¬ (c.currentClipName = "" ∨ ¬ HasClip c c.currentClipName = true) := by
    simp [HasClip, hclip, hset]
  have hloop : ¬ (clip.looping = true ∨ c.looping = true) := by
    simp [hclipLoop, hctlLoop]
  unfold Update
  rw [if_neg (not_not.mpr hplaying), if_neg hhas]
  simp only [hclip]
  rw [if_pos hover, if_neg hloop]
  by_cases hfade : c.nextClipName ≠ "" ∧ c.blendDuration > 0
  · rw [if_pos hfade, if_neg (fun h => hnocommit ⟨hfade.1, hfade.2, h⟩)]
    exact ⟨rfl, rfl⟩
  · rw [if_neg hfade]
    exact ⟨rfl, rfl⟩

/-- C15, amended, at a concrete input: a newly constructed controller,
`AddClip` of a clip with `looping = false` and duration 1, `Play`,
`SetLooping(false)`, then `Update(3/2)`: `currentTime` is 1 and the state is
`Stopped`. -/
theorem Update_stops_non_looping_clip_witness :
    (Update (SetLooping playingOnce false) (3 / 2)).currentTime = 1
      ∧ (Update (SetLooping playingOnce false) (3 / 2)).state = AnimationState.Stopped :=
  Update_stops_non_looping_clip (SetLooping playingOnce false) (3 / 2) onceClip (by decide)
    (by decide) (by decide) (by decide) (by decide) (by decide) (by with_unfolding_all decide)

/-- C16: for a controller in state `Playing` with a cross-fade active (fade
target set and `blendDuration > 0`) whose current clip is set and in the
library: when `blendTime + deltaTime ≥ blendDuration`, after `Update` the
current clip is the former fade target, `currentTime` is 0 and no fade is in
progress (the fade target is empty and `blendTime` is 0); for a smaller
`deltaTime` the fade target is kept and `blendTime` has grown by
`deltaTime`. -/
theorem Update_advances_cross_fade (c : AnimationController) (deltaTime : ℚ)
    (hplaying : c.state = AnimationState.Playing) (hset : c.currentClipName ≠ "")
    (hhas : HasClip c c.currentClipName = true)
    (hnext : c.nextClipName ≠ "") (hdur : c.blendDuration > 0) :
    (c.blendTime + deltaTime ≥ c.blendDuration →
        (Update c deltaTime).currentClipName = c.nextClipName
          ∧ (Update c deltaTime).currentTime = 0
          ∧ (Update c deltaTime).nextClipName = ""
          ∧ (Update c deltaTime).blendTime = 0)
      ∧ (c.blendTime + deltaTime < c.blendDuration →
        (Update c deltaTime).currentClipName = c.currentClipName
          ∧ (Update c deltaTime).nextClipName = c.nextClipName
          ∧ (Update c deltaTime).blendTime = c.blendTime + deltaTime) := by
  have hhas2 : ¬ (c.currentClipName = "" ∨ ¬ HasClip c c.currentClipName = true) := by
    simp [hhas, hset]
  obtain ⟨clip, hclip⟩ := Option.isSome_iff_exists.mp hhas
  unfold Update
  rw [if_neg (not_not.mpr hplaying), if_neg hhas2]
  simp only [hclip]
  constructor
  · intro hge
    split_ifs <;> first | exact ⟨rfl, rfl, rfl, rfl⟩ | (exfalso; simp_all)
  · intro hlt
    have hnge : ¬ c.blendTime + deltaTime ≥ c.blendDuration := not_le.mpr hlt
    split_ifs <;> first | exact ⟨rfl, rfl, rfl⟩ | (exfalso; simp_all)

/-- C16, the stated instance: `Play("A")`, `Play("B", 1/2)`, `Update(1/2)`
gives the current clip "B", `currentTime` 0 and no fade. -/
theorem Update_advances_cross_fade_witness :
    (Update fading (1 / 2)).currentClipName = "B"
      ∧ (Update fading (1 / 2)).currentTime = 0
      ∧ (Update fading (1 / 2)).nextClipName = ""
      ∧ (Update fading (1 / 2)).blendTime = 0 := by
  have h := (Update_advances_cross_fade fading (1 / 2) (by with_unfolding_all decide)
    (by with_unfolding_all decide) (by with_unfolding_all decide)
    (by with_unfolding_all decide) (by with_unfolding_all decide)).1
    (by with_unfolding_all decide)
  have e : fading.nextClipName = "B" := by with_unfolding_all decide
  rw [e] at h
  exact h

end AnimationController

/-! ## Lemmas on the clip library -/

theorem lookup_filter_ne {β : Type} (l : List (String × β)) (k name : String) (h : k ≠ name) :
    (l.filter (fun p => p.1 != name)).lookup k = l.lookup k := by
  induction l with
  | nil => rfl
  | cons p rest ih =>
    obtain ⟨pk, pv⟩ := p
    by_cases hp : pk = name
    · have hk : (k == name) = false := beq_false_of_ne h
      simp [List.filter_cons, hp, List.lookup_cons, hk, ih]
    · by_cases hk : k = pk
      · subst hk
        simp [List.filter_cons, hp, List.lookup_cons]
      · have hk2 : (k == pk) = false := beq_false_of_ne hk
        simp [List.filter_cons, hp, List.lookup_cons, hk2, ih]

theorem mem_of_lookup_eq_some {β : Type} (l : List (String × β)) (k : String) (v : β)
    (h : l.lookup k = some v) : (k, v) ∈ l := by
  induction l with
  | nil => simp at h
  | cons p rest ih =>
    obtain ⟨pk, pv⟩ := p
    by_cases hk : k = pk
    · subst hk
      simp only [List.lookup_cons_self, Option.some.injEq] at h
      subst h
      exact List.mem_cons_self _ _
    · have hk2 : (k == pk) = false := beq_false_of_ne hk
      simp only [List.lookup_cons, hk2] at h
      exact List.mem_cons_of_mem _ (ih h)

namespace AnimationController

open Examples

/-! ## The bounds of `currentTime` -/

/-- The three outcomes of `Play`. -/
theorem Play_cases (c : AnimationController) (clipName : String) (fadeTime : ℚ) :
    Play c clipName fadeTime = c
      ∨ Play c clipName fadeTime
        = { c with nextClipName := clipName, blendTime := 0, blendDuration := fadeTime }
      ∨ Play c clipName fadeTime
        = { c with
            currentClipName := clipName
            currentTime := 0
            state := AnimationState.Playing
            nextClipName := ""
            blendTime := 0 } := by
  unfold Play
  by_cases h1 : ¬ HasClip c clipName = true
  · rw [if_pos h1]; exact Or.inl rfl
  · rw [if_neg h1]
    by_cases h2 : fadeTime > 0 ∧ c.state = AnimationState.Playing
    · rw [if_pos h2]; exact Or.inr (Or.inl rfl)
    · rw [if_neg h2]; exact Or.inr (Or.inr rfl)

/-- `Update` keeps the library and the speed, and keeps `currentTime` within
`[0, duration]` when it was there, the speed and `deltaTime` are not negative
and every clip of the library has a positive duration. -/
theorem Update_time_bounds (c : AnimationController) (deltaTime : ℚ)
    (hpos : ∀ (name : String) (clip : AnimationClip),
      c.clips.lookup name = some clip → 0 < clip.duration)
    (hspeed : 0 ≤ c.playbackSpeed) (hdt : 0 ≤ deltaTime) (h0 : 0 ≤ c.currentTime)
    (hle : ∀ clip, c.clips.lookup c.currentClipName = some clip → c.currentTime ≤ clip.duration) :
    (Update c deltaTime).clips = c.clips
      ∧ (Update c deltaTime).playbackSpeed = c.playbackSpeed
      ∧ 0 ≤ (Update c deltaTime).currentTime
      ∧ ∀ clip, c.clips.lookup (Update c deltaTime).currentClipName = some clip →
          (Update c deltaTime).currentTime ≤ clip.duration := by
  have hadv : 0 ≤ c.currentTime + deltaTime * c.playbackSpeed :=
    add_nonneg h0 (mul_nonneg hdt hspeed)
  unfold Update
  by_cases hst : c.state ≠ AnimationState.Playing
  · rw [if_pos hst]; exact ⟨rfl, rfl, h0, hle⟩
  rw [if_neg hst]
  by_cases hhas : c.currentClipName = "" ∨ ¬ HasClip c c.currentClipName = true
  · rw [if_pos hhas]; exact ⟨rfl, rfl, h0, hle⟩
  rw [if_neg hhas]
  cases hclip : c.clips.lookup c.currentClipName with
  | none => exact ⟨rfl, rfl, h0, hle⟩
  | some clip =>
    have hd := hpos _ clip hclip
    have hsame : ∀ cl, c.clips.lookup c.currentClipName = some cl → cl = clip := by
      intro cl hcl
      have := hclip.symm.trans hcl
      simpa using this.symm
    simp only []
    by_cases hover : c.currentTime + deltaTime * c.playbackSpeed ≥ clip.duration
    · obtain ⟨f0, f1, _⟩ := fmod_of_pos _ _ hd hover
      rw [if_pos hover]
      by_cases hloop : clip.looping = true ∨ c.looping = true
      · rw [if_pos hloop]
        split_ifs
        · exact ⟨rfl, rfl, le_refl _, fun cl hcl => le_of_lt (hpos _ cl hcl)⟩
        · exact ⟨rfl, rfl, f0, fun cl hcl => by rw [hsame cl hcl]; exact le_of_lt f1⟩
        · exact ⟨rfl, rfl, f0, fun cl hcl => by rw [hsame cl hcl]; exact le_of_lt f1⟩
      · rw [if_neg hloop]
        split_ifs
        · exact ⟨rfl, rfl, le_refl _, fun cl hcl => le_of_lt (hpos _ cl hcl)⟩
        · exact ⟨rfl, rfl, le_of_lt hd, fun cl hcl => by rw [hsame cl hcl]⟩
        · exact ⟨rfl, rfl, le_of_lt hd, fun cl hcl => by rw [hsame cl hcl]⟩
    · rw [if_neg hover]
      have hlt := le_of_lt (not_le.mp hover)
      split_ifs
      · exact ⟨rfl, rfl, le_refl _, fun cl hcl => le_of_lt (hpos _ cl hcl)⟩
      · exact ⟨rfl, rfl, hadv, fun cl hcl => by rw [hsame cl hcl]; exact hlt⟩
      · exact ⟨rfl, rfl, hadv, fun cl hcl => by rw [hsame cl hcl]; exact hlt⟩

/-- The invariant behind C17: in a state reached with non-negative speeds and
without replacing the current clip by one shorter than `currentTime`, every
clip of the library has a positive duration, the speed is not negative,
`currentTime` is not negative, and `currentTime` is at most the duration of
the clip the library holds under the current clip's name. -/
theorem Reachable_time_invariant (c : AnimationController)
    (h : Reachable (fun speed => 0 ≤ speed)
      (fun c name clip => name = c.currentClipName → c.currentTime ≤ clip.duration) c) :
    (∀ p ∈ c.clips, p.2.duration > 0) ∧ 0 ≤ c.playbackSpeed ∧ 0 ≤ c.currentTime
      ∧ ∀ clip, c.clips.lookup c.currentClipName = some clip → c.currentTime ≤ clip.duration := by
  induction h with
  | init =>
    refine ⟨?_, ?_, ?_, ?_⟩
    · intro p hp; simp [AnimationController.new] at hp
    · simp [AnimationController.new]
    · simp [AnimationController.new]
    · intro clip hclip; simp [AnimationController.new] at hclip
  | @addClip c name clip _ hd hok ih =>
    obtain ⟨hclips, hspeed, h0, hle⟩ := ih
    refine ⟨?_, hspeed, h0, ?_⟩
    · intro p hp
      simp only [AddClip, List.mem_cons, List.mem_filter] at hp
      rcases hp with rfl | ⟨hp, _⟩
      · exact hd
      · exact hclips p hp
    · intro clip2 hclip2
      simp only [AddClip] at hclip2
      by_cases hname : c.currentClipName = name
      · rw [hname, List.lookup_cons_self] at hclip2
        simp only [Option.some.injEq] at hclip2
        subst hclip2
        exact hok hname.symm
      · have hk : (c.currentClipName == name) = false := beq_false_of_ne hname
        rw [List.lookup_cons, hk, lookup_filter_ne _ _ _ hname] at hclip2
        exact hle clip2 hclip2
  | @play c clipName fadeTime _ ih =>
    obtain ⟨hclips, hspeed, h0, hle⟩ := ih
    rcases Play_cases c clipName fadeTime with e | e | e <;> rw [e]
    · exact ⟨hclips, hspeed, h0, hle⟩
    · exact ⟨hclips, hspeed, h0, hle⟩
    · exact ⟨hclips, hspeed, le_refl _, fun clip hclip =>
        le_of_lt (hclips _ (mem_of_lookup_eq_some _ _ _ hclip))⟩
  | @crossFade c clipName fadeTime _ ih =>
    obtain ⟨hclips, hspeed, h0, hle⟩ := ih
    unfold CrossFade
    rcases Play_cases c clipName fadeTime with e | e | e <;> rw [e]
    · exact ⟨hclips, hspeed, h0, hle⟩
    · exact ⟨hclips, hspeed, h0, hle⟩
    · exact ⟨hclips, hspeed, le_refl _, fun clip hclip =>
        le_of_lt (hclips _ (mem_of_lookup_eq_some _ _ _ hclip))⟩
  | @stop c _ ih =>
    obtain ⟨hclips, hspeed, _, _⟩ := ih
    exact ⟨hclips, hspeed, le_refl _, fun clip hclip =>
      le_of_lt (hclips _ (mem_of_lookup_eq_some _ _ _ hclip))⟩
  | @pause c _ ih =>
    unfold Pause
    split_ifs
    · exact ih
    · exact ih
  | @resume c _ ih =>
    unfold Resume
    split_ifs
    · exact ih
    · exact ih
  | @setSpeed c speed _ hs ih =>
    obtain ⟨hclips, _, h0, hle⟩ := ih
    exact ⟨hclips, hs, h0, hle⟩
  | @setLooping c loop _ ih => exact ih
  | @update c deltaTime _ hdt ih =>
    obtain ⟨hclips, hspeed, h0, hle⟩ := ih
    obtain ⟨e1, e2, b0, b1⟩ := Update_time_bounds c deltaTime
      (fun name clip hclip => hclips _ (mem_of_lookup_eq_some _ _ _ hclip)) hspeed hdt h0 hle
    refine ⟨by rw [e1]; exact hclips, by rw [e2]; exact hspeed, b0, ?_⟩
    intro clip hclip
    rw [e1] at hclip
    exact b1 clip hclip

/-- C17, counterexamples to the claim as stated.  (1) A newly constructed
controller, `AddClip("L", loopClip)`, `Play("L")`, `SetSpeed(-1)`,
`Update(1/2)`: the current clip "L" is in the library and `currentTime` is
`-1/2`, below 0.  (2) A newly constructed controller, `AddClip("L", loopClip)`
(duration 2), `Play("L")`, `Update(3/2)`, `AddClip("L", onceClip)` (duration
1): the current clip "L" is in the library with duration 1 and `currentTime`
is `3/2`, above it. -/
theorem currentTime_bounds_counterexample :
    Reachable (fun _ => True) (fun _ _ _ => True) (Update (SetSpeed playingLoop (-1)) (1 / 2))
      ∧ (Update (SetSpeed playingLoop (-1)) (1 / 2)).currentClipName = "L"
      ∧ (Update (SetSpeed playingLoop (-1)) (1 / 2)).clips.lookup "L" = some loopClip
      ∧ (Update (SetSpeed playingLoop (-1)) (1 / 2)).currentTime = -1 / 2
      ∧ ¬ (0 ≤ (Update (SetSpeed playingLoop (-1)) (1 / 2)).currentTime)
      ∧ Reachable (fun _ => True) (fun _ _ _ => True)
          (AddClip (Update playingLoop (3 / 2)) "L" onceClip)
      ∧ (AddClip (Update playingLoop (3 / 2)) "L" onceClip).currentClipName = "L"
      ∧ (AddClip (Update playingLoop (3 / 2)) "L" onceClip).clips.lookup "L" = some onceClip
      ∧ (AddClip (Update playingLoop (3 / 2)) "L" onceClip).currentTime = 3 / 2
      ∧ ¬ ((AddClip (Update playingLoop (3 / 2)) "L" onceClip).currentTime
            ≤ onceClip.duration) := by
  have hbase : Reachable (fun _ => True) (fun _ _ _ => True) playingLoop :=
    Reachable.play "L" 0
      (Reachable.addClip "L" loopClip Reachable.init (by norm_num [loopClip]) trivial)
  refine ⟨?_, ?_, ?_, ?_, ?_, ?_, ?_, ?_, ?_, ?_⟩
  · exact Reachable.update (1 / 2) (Reachable.setSpeed (-1) hbase trivial) (by norm_num)
  · with_unfolding_all decide
  · with_unfolding_all decide
  · with_unfolding_all decide
  · with_unfolding_all decide
  · exact Reachable.addClip "L" onceClip (Reachable.update (3 / 2) hbase (by norm_num))
      (by norm_num [onceClip]) trivial
  · with_unfolding_all decide
  · with_unfolding_all decide
  · with_unfolding_all decide
  · with_unfolding_all decide

/-- C17, amended: in every state reached from a newly constructed controller by
`AddClip` (clips with `duration > 0`, and a call that replaces the current
clip passes a clip at least as long as `currentTime`), `Play`, `CrossFade`,
`Stop`, `Pause`, `Resume`, `SetSpeed` with a speed that is not negative,
`SetLooping` and `Update` (`deltaTime ≥ 0`), whenever the current clip is set
and in the library, `0 ≤ currentTime ≤` its duration. -/
theorem currentTime_within_clip (c : AnimationController) (clip : AnimationClip)
    (hreach : Reachable (fun speed => 0 ≤ speed)
      (fun c name clip => name = c.currentClipName → c.currentTime ≤ clip.duration) c)
    (hset : c.currentClipName ≠ "")
    (hclip : c.clips.lookup c.currentClipName = some clip) :
    0 ≤ c.currentTime ∧ c.currentTime ≤ clip.duration := by
  have _ := hset
  obtain ⟨_, _, h0, hle⟩ := Reachable_time_invariant c hreach
  exact ⟨h0, hle clip hclip⟩

/-- C17, amended, at a concrete input: a newly constructed controller,
`AddClip("L", loopClip)`, `Play("L")`, `Update(5/2)`. -/
theorem currentTime_within_clip_witness :
    0 ≤ (Update playingLoop (5 / 2)).currentTime
      ∧ (Update playingLoop (5 / 2)).currentTime ≤ loopClip.duration :=
  currentTime_within_clip (Update playingLoop (5 / 2)) loopClip
    (Reachable.update (5 / 2)
      (Reachable.play "L" 0
        (Reachable.addClip "L" loopClip Reachable.init (by norm_num [loopClip])
          (by intro _; norm_num [AnimationController.new, loopClip])))
      (by norm_num))
    (by with_unfolding_all decide) (by with_unfolding_all decide)

/-! ## `Update` and the layers of the controller -/

/-- `Update` reads and writes neither the state machine, nor the events, nor
the callback. -/
theorem Update_leaves_layers (c : AnimationController) (deltaTime : ℚ) :
    (Update c deltaTime).stateMachine = c.stateMachine
      ∧ (Update c deltaTime).useStateMachine = c.useStateMachine
      ∧ (Update c deltaTime).events = c.events
      ∧ (Update c deltaTime).eventCallback = c.eventCallback
      ∧ (Update c deltaTime).callbackLog = c.callbackLog := by
  unfold Update
  by_cases hst : c.state ≠ AnimationState.Playing
  · rw [if_pos hst]; exact ⟨rfl, rfl, rfl, rfl, rfl⟩
  rw [if_neg hst]
  by_cases hhas : c.currentClipName = "" ∨ ¬ HasClip c c.currentClipName = true
  · rw [if_pos hhas]; exact ⟨rfl, rfl, rfl, rfl, rfl⟩
  rw [if_neg hhas]
  cases hclip : c.clips.lookup c.currentClipName with
  | none => exact ⟨rfl, rfl, rfl, rfl, rfl⟩
  | some clip =>
    simp only []
    split_ifs <;> exact ⟨rfl, rfl, rfl, rfl, rfl⟩

/-- C18, evaluated on the code: `Update` never reads `useStateMachine` and
never runs the state machine, whose state it returns as it was.  On the
controller `drivenByStateMachine` (layer enabled, playing "A", state machine
in Idle with the transition to Run enabled, Run mapped to the clip "B" of the
library) the state machine's own `Update` resolves to the target clip "B",
and yet after the controller's `Update(1/4)` the state machine is still in
Idle, the current clip is "A" and the fade target is empty. -/
theorem Update_does_not_run_state_machine (c : AnimationController) (deltaTime : ℚ) :
    (Update c deltaTime).stateMachine = c.stateMachine
      ∧ drivenByStateMachine.useStateMachine = true
      ∧ drivenByStateMachine.state = AnimationState.Playing
      ∧ drivenByStateMachine.currentClipName = "A"
      ∧ AnimationStateMachine.GetTargetClip
          (AnimationStateMachine.Update drivenByStateMachine.stateMachine (1 / 4)) = "B"
      ∧ HasClip drivenByStateMachine "B" = true
      ∧ (Update drivenByStateMachine (1 / 4)).stateMachine.currentState = "Idle"
      ∧ (Update drivenByStateMachine (1 / 4)).currentClipName = "A"
      ∧ (Update drivenByStateMachine (1 / 4)).nextClipName = "" := by
  refine ⟨(Update_leaves_layers c deltaTime).1, ?_, ?_, ?_, ?_, ?_, ?_, ?_, ?_⟩ <;>
    with_unfolding_all decide

/-- C19, evaluated on the code: `Update` never calls `CheckEvents`, so it calls
the callback for no event and leaves every `triggered` flag as it was.  On the
controller `withEvent` (callback registered, looping clip "L" of duration 2
playing from time 0, event "step" at time 1) `Update(1)` moves `currentTime`
from 0 to 1 and the callback has been called with nothing; a call of
`CheckEvents` after it would have called it with "step". -/
theorem Update_does_not_fire_events (c : AnimationController) (deltaTime : ℚ) :
    (Update c deltaTime).callbackLog = c.callbackLog
      ∧ (Update c deltaTime).events = c.events
      ∧ withEvent.eventCallback = true
      ∧ withEvent.events = [⟨"L", 1, "step", false⟩]
      ∧ withEvent.currentClipName = "L"
      ∧ withEvent.currentTime = 0
      ∧ (Update withEvent 1).currentTime = 1
      ∧ (Update withEvent 1).callbackLog = []
      ∧ (CheckEvents (Update withEvent 1)).callbackLog = ["step"] := by
  refine ⟨(Update_leaves_layers c deltaTime).2.2.2.2, (Update_leaves_layers c deltaTime).2.2.1,
    ?_, ?_, ?_, ?_, ?_, ?_, ?_⟩ <;> with_unfolding_all decide

end AnimationController

/-! ## The state machine (`AnimationStateMachine::Update`) -/

namespace AnimationStateMachine

open Examples

theorem EvaluateCondition_eq_true_iff (sm : AnimationStateMachine) (condition : String) :
    EvaluateCondition sm condition = true ↔ sm.boolParameters.lookup condition = some true := by
  unfold EvaluateCondition
  cases h : sm.boolParameters.lookup condition with
  | none => simp
  | some v => simp

/-- The loop returns the machine unchanged when no transition it visits is
enabled. -/
theorem updateLoop_of_none_enabled (sm : AnimationStateMachine) (l : List AnimationTransition)
    (h : ∀ u ∈ l, ¬ (u.fromState = sm.currentState
      ∧ sm.boolParameters.lookup u.condition = some true)) :
    updateLoop sm l = sm := by
  induction l with
  | nil => rfl
  | cons t rest ih =>
    have ht : ¬ (t.fromState = sm.currentState ∧ EvaluateCondition sm t.condition = true) := by
      rw [EvaluateCondition_eq_true_iff]
      exact h t (List.mem_cons_self _ _)
    simp only [updateLoop, if_neg ht]
    exact ih (fun u hu => h u (List.mem_cons_of_mem _ hu))

/-- The loop stops at the first enabled transition and moves to its target. -/
theorem updateLoop_of_first_enabled (sm : AnimationStateMachine)
    (pre post : List AnimationTransition) (t : AnimationTransition)
    (hpre : ∀ u ∈ pre, ¬ (u.fromState = sm.currentState
      ∧ sm.boolParameters.lookup u.condition = some true))
    (hfrom : t.fromState = sm.currentState)
    (hcond : sm.boolParameters.lookup t.condition = some true) :
    updateLoop sm (pre ++ t :: post) = { sm with currentState := t.toState } := by
  induction pre with
  | nil =>
    have ht : t.fromState = sm.currentState ∧ EvaluateCondition sm t.condition = true :=
      ⟨hfrom, (EvaluateCondition_eq_true_iff sm t.condition).mpr hcond⟩
    simp only [List.nil_append, updateLoop, if_pos ht]
  | cons u rest ih =>
    have hu : ¬ (u.fromState = sm.currentState ∧ EvaluateCondition sm u.condition = true) := by
      rw [EvaluateCondition_eq_true_iff]
      exact hpre u (List.mem_cons_self _ _)
    simp only [List.cons_append, updateLoop, if_neg hu]
    exact ih (fun v hv => hpre v (List.mem_cons_of_mem _ hv))

/-- C20: `Update` moves the state machine to the `toState` of the first
transition, in registration order, whose `fromState` is the current state and
whose condition is a bool parameter that is currently true, and writes
nothing else; it returns the machine unchanged when there is no such
transition.  One transition at most fires per call: the result is decided by
the first enabled transition alone, whatever transitions leave its target. -/
theorem StateMachine_Update_fires_first_enabled (sm : AnimationStateMachine) (deltaTime : ℚ) :
    (∀ (pre post : List AnimationTransition) (t : AnimationTransition),
        sm.transitions = pre ++ t :: post →
        (∀ u ∈ pre, ¬ (u.fromState = sm.currentState
          ∧ sm.boolParameters.lookup u.condition = some true)) →
        t.fromState = sm.currentState →
        sm.boolParameters.lookup t.condition = some true →
        Update sm deltaTime = { sm with currentState := t.toState })
      ∧ ((∀ u ∈ sm.transitions, ¬ (u.fromState = sm.currentState
          ∧ sm.boolParameters.lookup u.condition = some true)) →
        Update sm deltaTime = sm) := by
  constructor
  · intro pre post t htr hpre hfrom hcond
    have hloop := updateLoop_of_first_enabled sm pre post t hpre hfrom hcond
    rw [← htr] at hloop
    exact hloop
  · intro hnone
    exact updateLoop_of_none_enabled sm sm.transitions hnone

/-- C20, the stated instance: states Idle and Run, the transition from Idle to
Run on "move", "move" true: one `Update` gives Run, and a second `Update`
still gives Run. -/
theorem StateMachine_Update_fires_first_enabled_witness :
    GetCurrentState idleRun = "Idle"
      ∧ GetCurrentState (Update idleRun 0) = "Run"
      ∧ GetCurrentState (Update (Update idleRun 0) 0) = "Run" := by
  have h1 : Update idleRun 0 = { idleRun with currentState := "Run" } :=
    (StateMachine_Update_fires_first_enabled idleRun 0).1 [] [] ⟨"Idle", "Run", "move", 3 / 10⟩
      (by with_unfolding_all decide) (by simp) (by with_unfolding_all decide)
      (by with_unfolding_all decide)
  have h2 : Update (Update idleRun 0) 0 = Update idleRun 0 :=
    (StateMachine_Update_fires_first_enabled (Update idleRun 0) 0).2 (by
      rw [h1]
      intro u hu
      have hmem : u = ⟨"Idle", "Run", "move", 3 / 10⟩ := by
        have e : idleRun.transitions = [⟨"Idle", "Run", "move", 3 / 10⟩] := by
          with_unfolding_all decide
        simp only [e, List.mem_singleton] at hu
        exact hu
      subst hmem
      simp)
  refine ⟨by with_unfolding_all decide, ?_, ?_⟩
  · rw [h1]; rfl
  · rw [h2, h1]; rfl

/-! ## The state machine (`AddState`, `SetParameter`) -/

/-- Once the current state has a non-empty name, `AddState` calls leave it
alone. -/
theorem foldl_AddState_currentState (calls : List (String × String))
    (sm : AnimationStateMachine) (h : sm.currentState ≠ "") :
    (calls.foldl (fun sm call => AddState sm call.1 call.2) sm).currentState
      = sm.currentState := by
  induction calls generalizing sm with
  | nil => rfl
  | cons call rest ih =>
    have e : (AddState sm call.1 call.2).currentState = sm.currentState := by
      unfold AddState
      rw [if_neg h]
    rw [List.foldl_cons, ih (AddState sm call.1 call.2) (by rw [e]; exact h), e]

/-- C21, a counterexample to the claim as stated: after `AddState("", "a")` and
`AddState("Run", "b")` on a newly constructed state machine, `GetCurrentState`
returns "Run", the name of the second call, not the name "" of the first:
the empty name is what the code takes for "no current state yet". -/
theorem AddState_first_name_counterexample :
    GetCurrentState (addStates [("", "a"), ("Run", "b")]) = "Run"
      ∧ GetCurrentState (addStates [("", "a"), ("Run", "b")]) ≠ ("", "a").1 := by
  constructor <;> decide

/-- C21, amended: after a non-empty sequence of `AddState` calls on a newly
constructed state machine whose first call passes a non-empty name,
`GetCurrentState` returns the name passed to the first call. -/
theorem AddState_first_name_is_current (first : String × String)
    (rest : List (String × String)) (hname : first.1 ≠ "") :
    GetCurrentState (addStates (first :: rest)) = first.1 := by
  have e : (AddState new first.1 first.2).currentState = first.1 := by
    have hnew : new.currentState = "" := rfl
    unfold AddState
    rw [if_pos hnew]
  unfold GetCurrentState addStates
  rw [List.foldl_cons, foldl_AddState_currentState rest _ (by rw [e]; exact hname), e]

/-- C21, amended, at a concrete input: `AddState("Idle", "A")`,
`AddState("Run", "B")`, `AddState("Idle", "C")`. -/
theorem AddState_first_name_is_current_witness :
    GetCurrentState (addStates [("Idle", "A"), ("Run", "B"), ("Idle", "C")]) = "Idle" :=
  AddState_first_name_is_current ("Idle", "A") [("Run", "B"), ("Idle", "C")] (by decide)

/-- The state the loop ends in is decided by the current state, the bool
parameters and the transitions it visits. -/
theorem updateLoop_currentState_congr (sm1 sm2 : AnimationStateMachine)
    (l : List AnimationTransition) (hstate : sm1.currentState = sm2.currentState)
    (hbool : sm1.boolParameters = sm2.boolParameters) :
    (updateLoop sm1 l).currentState = (updateLoop sm2 l).currentState := by
  induction l with
  | nil => exact hstate
  | cons t rest ih =>
    have hev : EvaluateCondition sm1 t.condition = EvaluateCondition sm2 t.condition := by
      unfold EvaluateCondition
      rw [hbool]
    simp only [updateLoop, hstate, hev]
    split_ifs
    · rfl
    · exact ih

/-- A transition whose condition evaluates to false can be taken out of the
list without changing the state the loop ends in. -/
theorem updateLoop_skip_disabled (sm : AnimationStateMachine)
    (pre post : List AnimationTransition) (t : AnimationTransition)
    (hoff : EvaluateCondition sm t.condition = false) :
    updateLoop sm (pre ++ t :: post) = updateLoop sm (pre ++ post) := by
  induction pre with
  | nil =>
    have ht : ¬ (t.fromState = sm.currentState ∧ EvaluateCondition sm t.condition = true) := by
      rw [hoff]
      simp
    simp only [List.nil_append, updateLoop, if_neg ht]
  | cons u rest ih =>
    simp only [List.cons_append, updateLoop]
    split_ifs
    · rfl
    · exact ih

/-- C22: the state `Update` produces is decided by the current state, the
transitions and the bool parameters alone.  A condition name that is not a
key of the bool parameters evaluates to false, and a transition with such a
condition never fires: taking it out of the transition list does not change
the state `Update` produces.  `SetParameter(name, float)` changes no bool
parameter, whatever the name, and commutes with `Update`, so the state a
following `Update` produces is the same with and without it. -/
theorem StateMachine_Update_reads_bool_parameters_only (sm : AnimationStateMachine)
    (deltaTime : ℚ) :
    (∀ condition : String, sm.boolParameters.lookup condition = none →
        EvaluateCondition sm condition = false)
      ∧ (∀ (pre post : List AnimationTransition) (t : AnimationTransition),
          sm.transitions = pre ++ t :: post →
          sm.boolParameters.lookup t.condition = none →
          (Update sm deltaTime).currentState
            = (Update { sm with transitions := pre ++ post } deltaTime).currentState)
      ∧ (∀ (name : String) (value : ℚ),
          (SetParameterFloat sm name value).boolParameters = sm.boolParameters
            ∧ Update (SetParameterFloat sm name value) deltaTime
              = SetParameterFloat (Update sm deltaTime) name value
            ∧ (Update (SetParameterFloat sm name value) deltaTime).currentState
              = (Update sm deltaTime).currentState)
      ∧ (∀ sm2 : AnimationStateMachine, sm2.currentState = sm.currentState →
          sm2.transitions = sm.transitions → sm2.boolParameters = sm.boolParameters →
          (Update sm2 deltaTime).currentState = (Update sm deltaTime).currentState) := by
  have hoff : ∀ condition : String, sm.boolParameters.lookup condition = none →
      EvaluateCondition sm condition = false := by
    intro condition h
    unfold EvaluateCondition
    rw [h]
  have hcomm : ∀ (name : String) (value : ℚ) (l : List AnimationTransition),
      updateLoop (SetParameterFloat sm name value) l
        = SetParameterFloat (updateLoop sm l) name value := by
    intro name value l
    induction l with
    | nil => rfl
    | cons t rest ih =>
      have hev : EvaluateCondition (SetParameterFloat sm name value) t.condition
          = EvaluateCondition sm t.condition := rfl
      have hst : (SetParameterFloat sm name value).currentState = sm.currentState := rfl
      simp only [updateLoop, hev, hst]
      split_ifs
      · rfl
      · exact ih
  refine ⟨hoff, ?_, ?_, ?_⟩
  · intro pre post t htr hnone
    unfold Update
    rw [htr]
    show (updateLoop sm (pre ++ t :: post)).currentState
      = (updateLoop { sm with transitions := pre ++ post } (pre ++ post)).currentState
    rw [updateLoop_skip_disabled sm pre post t (hoff _ hnone)]
    exact updateLoop_currentState_congr _ _ _ rfl rfl
  · intro name value
    have hupd : Update (SetParameterFloat sm name value) deltaTime
        = SetParameterFloat (Update sm deltaTime) name value := hcomm name value sm.transitions
    exact ⟨rfl, hupd, by rw [hupd]; rfl⟩
  · intro sm2 hstate htr hbool
    unfold Update
    rw [htr]
    exact updateLoop_currentState_congr _ _ _ hstate hbool

/-- C22 at a concrete input: on the state machine `idleRun`, whose transition
waits for the bool parameter "move", setting the float parameter "move"
changes neither the bool parameters nor the state `Update` produces. -/
theorem StateMachine_Update_reads_bool_parameters_only_witness :
    (SetParameterFloat idleRun "move" 0).boolParameters = idleRun.boolParameters
      ∧ Update (SetParameterFloat idleRun "move" 0) 0
        = SetParameterFloat (Update idleRun 0) "move" 0
      ∧ (Update (SetParameterFloat idleRun "move" 0) 0).currentState
        = (Update idleRun 0).currentState :=
  (StateMachine_Update_reads_bool_parameters_only idleRun 0).2.2.1 "move" 0

end AnimationStateMachine

/-! ## `Quaternion::Slerp` and the sign of the second end point -/

/-- C28: `Slerp` follows the shortest-arc rule.  For all quaternions `a` and
`b` and every `t`: when `dot(a, b) < 0`, `Slerp(a, b, t)` is the interpolation
of the pair `a`, `b * -1` (`b` is negated before interpolating); when
`dot(a, b)` is not negative it is the interpolation of the pair `a`, `b`
itself (`b` is not negated); either way the pair interpolated has a dot
product that is not negative.  Hence, when `dot(a, b)` is not zero,
`Slerp(a, b, t) = Slerp(a, b * -1, t)`: the result does not depend on the
sign of the second end point.  This holds whatever the maths library
returns. -/
theorem Slerp_sign_of_second_endpoint (m : Libm) (a b : Quaternion) (t : ℚ) :
    (Quaternion.Dot a b < 0 →
        Quaternion.Slerp m a b t
          = Quaternion.interpolatePair m a (Quaternion.mulScalar b (-1)) t)
      ∧ (¬ Quaternion.Dot a b < 0 →
        Quaternion.Slerp m a b t = Quaternion.interpolatePair m a b t)
      ∧ 0 ≤ Quaternion.Dot a
          (if Quaternion.Dot a b < 0 then Quaternion.mulScalar b (-1) else b)
      ∧ (Quaternion.Dot a b ≠ 0 →
        Quaternion.Slerp m a b t = Quaternion.Slerp m a (Quaternion.mulScalar b (-1)) t) := by
  have hneg : ∀ q : Quaternion,
      Quaternion.Dot a (Quaternion.mulScalar q (-1)) = -Quaternion.Dot a q := by
    intro q
    unfold Quaternion.Dot Quaternion.mulScalar
    ring
  have hback : Quaternion.mulScalar (Quaternion.mulScalar b (-1)) (-1) = b := by
    cases b
    simp [Quaternion.mulScalar]
  have hflip : ∀ q : Quaternion, Quaternion.Dot a q < 0 →
      Quaternion.Slerp m a q t
        = Quaternion.interpolatePair m a (Quaternion.mulScalar q (-1)) t := by
    intro q h
    unfold Quaternion.Slerp Quaternion.interpolatePair
    simp only [hneg, if_pos h]
  have hkeep : ∀ q : Quaternion, ¬ Quaternion.Dot a q < 0 →
      Quaternion.Slerp m a q t = Quaternion.interpolatePair m a q t := by
    intro q h
    unfold Quaternion.Slerp Quaternion.interpolatePair
    simp only [if_neg h]
  refine ⟨hflip b, hkeep b, ?_, ?_⟩
  · split_ifs with h
    · rw [hneg]; linarith
    · exact not_lt.mp h
  · intro hdot
    rcases lt_or_gt_of_ne hdot with h | h
    · rw [hflip b h, hkeep (Quaternion.mulScalar b (-1)) (by rw [hneg]; linarith)]
    · rw [hkeep b (by linarith), hflip (Quaternion.mulScalar b (-1)) (by rw [hneg]; linarith),
        hback]

/-- C28 at a concrete input: two rotations with dot product `-4/5`; `Slerp`
negates the second one and interpolates the pair, whose dot product is then
`4/5`, through its spherical branch, and gives the same result for the
second rotation with the other sign. -/
theorem Slerp_sign_of_second_endpoint_witness :
    Quaternion.Slerp Libm.approx ⟨3 / 5, 0, 0, 4 / 5⟩ ⟨0, 0, 0, -1⟩ (1 / 3)
        = Quaternion.interpolatePair Libm.approx ⟨3 / 5, 0, 0, 4 / 5⟩
            (Quaternion.mulScalar ⟨0, 0, 0, -1⟩ (-1)) (1 / 3)
      ∧ Quaternion.Slerp Libm.approx ⟨3 / 5, 0, 0, 4 / 5⟩ ⟨0, 0, 0, -1⟩ (1 / 3)
        = Quaternion.Slerp Libm.approx ⟨3 / 5, 0, 0, 4 / 5⟩
            (Quaternion.mulScalar ⟨0, 0, 0, -1⟩ (-1)) (1 / 3)
      ∧ Quaternion.Slerp Libm.approx ⟨3 / 5, 0, 0, 4 / 5⟩ ⟨0, 0, 0, -1⟩ (1 / 3)
        = ⟨2 / 5, 0, 0, 13 / 15⟩ :=
  ⟨(Slerp_sign_of_second_endpoint Libm.approx ⟨3 / 5, 0, 0, 4 / 5⟩ ⟨0, 0, 0, -1⟩ (1 / 3)).1
      (by norm_num [Quaternion.Dot]),
    (Slerp_sign_of_second_endpoint Libm.approx ⟨3 / 5, 0, 0, 4 / 5⟩ ⟨0, 0, 0, -1⟩ (1 / 3)).2.2.2
      (by norm_num [Quaternion.Dot]),
    by with_unfolding_all decide⟩

namespace AnimationController

open Examples

/-! ## The interpolation branch of `SampleClip` -/

/-- What the search loop has found when it returns a non-zero index: the
keyframe at that index is later than `time` and no keyframe before it is. -/
theorem findNextIndexFrom_found (time : ℚ) (kfs : List AnimationKeyframe) (s : Nat)
    (hfound : findNextIndexFrom time kfs s ≠ 0) :
    ∃ i : Nat, findNextIndexFrom time kfs s = s + i
      ∧ (∃ k, kfs[i]? = some k ∧ time < k.time)
      ∧ ∀ (j : Nat) (k : AnimationKeyframe), j < i → kfs[j]? = some k → k.time ≤ time := by
  induction kfs generalizing s with
  | nil => exact absurd rfl hfound
  | cons k rest ih =>
    by_cases hk : k.time > time
    · refine ⟨0, ?_, ⟨k, by simp, hk⟩, fun j _ hj => absurd hj (Nat.not_lt_zero j)⟩
      simp only [findNextIndexFrom, if_pos hk, Nat.add_zero]
    · have hstep : findNextIndexFrom time (k :: rest) s = findNextIndexFrom time rest (s + 1) := by
        simp only [findNextIndexFrom, if_neg hk]
      rw [hstep] at hfound ⊢
      obtain ⟨i, hi, ⟨k1, hk1, hlt⟩, hbefore⟩ := ih (s + 1) hfound
      refine ⟨i + 1, by rw [hi]; omega, ⟨k1, by simpa using hk1, hlt⟩, ?_⟩
      intro j kj hj hkj
      cases j with
      | zero =>
        simp only [List.getElem?_cons_zero, Option.some.injEq] at hkj
        subst hkj
        exact not_lt.mp hk
      | succ j =>
        simp only [List.getElem?_cons_succ] at hkj
        exact hbefore j kj (by omega) hkj

/-- C30: for every keyframe list, sorted or not, and every sample time, when
the search ends with `nextIndex ≠ 0` (the precondition of the interpolation
branch) then `1 ≤ nextIndex < keyframes.size()`, the keyframes `k0` at
`nextIndex - 1` and `k1` at `nextIndex` exist and satisfy
`k0.time ≤ time < k1.time`, the denominator `k1.time - k0.time` is positive,
and the factor `(time - k0.time) / (k1.time - k0.time)` lies in `[0, 1)`, so
that `Clamp` to `[0, 1]` returns it unchanged. -/
theorem interpolation_branch_is_safe (keyframes : List AnimationKeyframe) (time : ℚ)
    (hbranch : findNextIndex keyframes time ≠ 0) :
    1 ≤ findNextIndex keyframes time
      ∧ findNextIndex keyframes time < keyframes.length
      ∧ ∃ k0 k1 : AnimationKeyframe,
          keyframes[findNextIndex keyframes time - 1]? = some k0
            ∧ keyframes[findNextIndex keyframes time]? = some k1
            ∧ k0.time ≤ time ∧ time < k1.time
            ∧ 0 < k1.time - k0.time
            ∧ 0 ≤ (time - k0.time) / (k1.time - k0.time)
            ∧ (time - k0.time) / (k1.time - k0.time) < 1
            ∧ Math.Clamp ((time - k0.time) / (k1.time - k0.time)) 0 1
              = (time - k0.time) / (k1.time - k0.time) := by
  obtain ⟨i, hi, ⟨k1, hk1, hlt⟩, hbefore⟩ := findNextIndexFrom_found time keyframes 0 hbranch
  have hidx : findNextIndex keyframes time = i := by
    unfold findNextIndex
    rw [hi]
    omega
  rw [hidx] at hbranch ⊢
  have hlen : i < keyframes.length := by
    rcases Nat.lt_or_ge i keyframes.length with h | h
    · exact h
    · rw [List.getElem?_eq_none h] at hk1
      exact absurd hk1 (by simp)
  have hpos : 1 ≤ i := Nat.one_le_iff_ne_zero.mpr hbranch
  have hk0 : keyframes[i - 1]? = some (keyframes[i - 1]) :=
    List.getElem?_eq_getElem (by omega)
  have hle : (keyframes[i - 1]).time ≤ time := hbefore (i - 1) _ (by omega) hk0
  have hden : 0 < k1.time - (keyframes[i - 1]).time := by linarith
  have hf0 : 0 ≤ (time - (keyframes[i - 1]).time) / (k1.time - (keyframes[i - 1]).time) :=
    div_nonneg (by linarith) (le_of_lt hden)
  have hf1 : (time - (keyframes[i - 1]).time) / (k1.time - (keyframes[i - 1]).time) < 1 := by
    rw [div_lt_one hden]
    linarith
  exact ⟨hpos, hlen, keyframes[i - 1], k1, hk0, hk1, hle, hlt, hden, hf0, hf1,
    Clamp_unit_of_mem _ hf0 (le_of_lt hf1)⟩

/-- C30 at a concrete input: the keyframes of `stutterTrack` (times 0, 0, 1,
duplicate times) sampled at time 1/2. -/
theorem interpolation_branch_is_safe_witness :
    1 ≤ findNextIndex stutterTrack.keyframes (1 / 2)
      ∧ findNextIndex stutterTrack.keyframes (1 / 2) < stutterTrack.keyframes.length
      ∧ ∃ k0 k1 : AnimationKeyframe,
          stutterTrack.keyframes[findNextIndex stutterTrack.keyframes (1 / 2) - 1]? = some k0
            ∧ stutterTrack.keyframes[findNextIndex stutterTrack.keyframes (1 / 2)]? = some k1
            ∧ k0.time ≤ 1 / 2 ∧ 1 / 2 < k1.time
            ∧ 0 < k1.time - k0.time
            ∧ 0 ≤ (1 / 2 - k0.time) / (k1.time - k0.time)
            ∧ (1 / 2 - k0.time) / (k1.time - k0.time) < 1
            ∧ Math.Clamp ((1 / 2 - k0.time) / (k1.time - k0.time)) 0 1
              = (1 / 2 - k0.time) / (k1.time - k0.time) :=
  interpolation_branch_is_safe stutterTrack.keyframes (1 / 2) (by with_unfolding_all decide)

/-! ## `CheckEvents` -/

/-- The names one pass of the loop of `CheckEvents` calls the callback with. -/
theorem flatten_checkEvent_eq_filter (c : AnimationController) (events : List AnimationEvent) :
    (events.map (fun e => (checkEvent c e).2)).flatten
      = (events.filter (fun e =>
          decide (e.clipName = c.currentClipName) && !e.triggered
            && decide (e.time ≤ c.currentTime))).map (fun e => e.eventName) := by
  induction events with
  | nil => rfl
  | cons e rest ih =>
    have h1 : (checkEvent c e).2
        = if (decide (e.clipName = c.currentClipName) && !e.triggered
            && decide (e.time ≤ c.currentTime)) = true then [e.eventName] else [] := rfl
    rw [List.map_cons, List.flatten_cons, ih, List.filter_cons, h1]
    split_ifs <;> simp

/-- The `triggered` flag one iteration of the loop of `CheckEvents` leaves. -/
theorem checkEvent_triggered (c : AnimationController) (e : AnimationEvent) :
    (checkEvent c e).1
      = { e with
          triggered :=
            if c.currentTime < e.time then false
            else if e.clipName = c.currentClipName then true
            else e.triggered } := by
  obtain ⟨clipName, time, eventName, triggered⟩ := e
  simp only [checkEvent, ge_iff_le]
  by_cases hlt : c.currentTime < time
  · have hle : ¬ time ≤ c.currentTime := not_le.mpr hlt
    simp [hlt, hle]
  · have hle : time ≤ c.currentTime := not_lt.mp hlt
    by_cases hclip : clipName = c.currentClipName
    · cases triggered <;> simp [hlt, hle, hclip]
    · simp [hlt, hle, hclip]

/-- What `CheckEvents` writes when a callback is registered. -/
theorem CheckEvents_of_callback (c : AnimationController) (hcallback : c.eventCallback = true) :
    CheckEvents c
      = { c with
          events := c.events.map (fun e =>
            { e with
              triggered :=
                if c.currentTime < e.time then false
                else if e.clipName = c.currentClipName then true
                else e.triggered })
          callbackLog := c.callbackLog
            ++ (c.events.filter (fun e =>
                decide (e.clipName = c.currentClipName) && !e.triggered
                  && decide (e.time ≤ c.currentTime))).map (fun e => e.eventName) } := by
  have hne : ¬ c.eventCallback = false := by simp [hcallback]
  unfold CheckEvents
  rw [if_neg hne]
  simp only [flatten_checkEvent_eq_filter, checkEvent_triggered]

/-- C29: with a callback registered, `CheckEvents` calls the callback, in the
order of the event list, with the names of exactly the events whose clip name
is the current clip, whose `triggered` flag is false and whose time is at
most `currentTime`; it leaves every event with `triggered` false when its
time is greater than `currentTime`, and otherwise true when its clip is the
current clip (the events it fired included) and as it was for another clip;
it writes nothing but the events and the callback's log.  A second
`CheckEvents` right after it calls the callback for no event. -/
theorem CheckEvents_fires_due_events_once (c : AnimationController)
    (hcallback : c.eventCallback = true) :
    (CheckEvents c).callbackLog
        = c.callbackLog
          ++ (c.events.filter (fun e =>
              decide (e.clipName = c.currentClipName) && !e.triggered
                && decide (e.time ≤ c.currentTime))).map (fun e => e.eventName)
      ∧ (CheckEvents c).events
        = c.events.map (fun e =>
            { e with
              triggered :=
                if c.currentTime < e.time then false
                else if e.clipName = c.currentClipName then true
                else e.triggered })
      ∧ CheckEvents c
        = { c with events := (CheckEvents c).events, callbackLog := (CheckEvents c).callbackLog }
      ∧ (CheckEvents (CheckEvents c)).callbackLog = (CheckEvents c).callbackLog := by
  have h1 := CheckEvents_of_callback c hcallback
  have hcb2 : (CheckEvents c).eventCallback = true := by rw [h1]; exact hcallback
  have h2 := CheckEvents_of_callback (CheckEvents c) hcb2
  have hclip : (CheckEvents c).currentClipName = c.currentClipName := by rw [h1]
  have htime : (CheckEvents c).currentTime = c.currentTime := by rw [h1]
  have hev : (CheckEvents c).events
      = c.events.map (fun e =>
          { e with
            triggered :=
              if c.currentTime < e.time then false
              else if e.clipName = c.currentClipName then true
              else e.triggered }) := by rw [h1]
  have hnone : (CheckEvents c).events.filter (fun e =>
      decide (e.clipName = (CheckEvents c).currentClipName) && !e.triggered
        && decide (e.time ≤ (CheckEvents c).currentTime)) = [] := by
    rw [hclip, htime, hev, List.filter_eq_nil_iff]
    intro e he
    obtain ⟨e0, _, rfl⟩ := List.mem_map.mp he
    by_cases hlt : c.currentTime < e0.time
    · have hle : ¬ e0.time ≤ c.currentTime := not_le.mpr hlt
      simp [hle]
    · by_cases hc : e0.clipName = c.currentClipName
      · simp [hlt, hc]
      · simp [hc]
  refine ⟨by rw [h1], hev, ?_, ?_⟩
  · conv_lhs => rw [h1]
    rw [h1]
  · rw [h2, hnone]
    simp

/-- C29 at a concrete input: the controller `withEvent` after `Update(1)`, at
the time of its event "step". -/
theorem CheckEvents_fires_due_events_once_witness :
    (CheckEvents (Update withEvent 1)).callbackLog = ["step"]
      ∧ (CheckEvents (Update withEvent 1)).events = [⟨"L", 1, "step", true⟩]
      ∧ (CheckEvents (CheckEvents (Update withEvent 1))).callbackLog = ["step"] := by
  have h := CheckEvents_fires_due_events_once (Update withEvent 1)
    (by with_unfolding_all decide)
  refine ⟨?_, ?_, ?_⟩
  · rw [h.1]; with_unfolding_all decide
  · rw [h.2.1]; with_unfolding_all decide
  · rw [h.2.2.2, h.1]; with_unfolding_all decide

/-! ## The fade target and `blendDuration` -/

/-- `Update` either clears the fade target or leaves the fade target and
`blendDuration` as they were. -/
theorem Update_fade_target (c : AnimationController) (deltaTime : ℚ) :
    (Update c deltaTime).nextClipName = ""
      ∨ ((Update c deltaTime).nextClipName = c.nextClipName
        ∧ (Update c deltaTime).blendDuration = c.blendDuration) := by
  unfold Update
  by_cases hst : c.state ≠ AnimationState.Playing
  · rw [if_pos hst]; exact Or.inr ⟨rfl, rfl⟩
  rw [if_neg hst]
  by_cases hhas : c.currentClipName = "" ∨ ¬ HasClip c c.currentClipName = true
  · rw [if_pos hhas]; exact Or.inr ⟨rfl, rfl⟩
  rw [if_neg hhas]
  cases hclip : c.clips.lookup c.currentClipName with
  | none => exact Or.inr ⟨rfl, rfl⟩
  | some clip =>
    simp only []
    split_ifs <;> first | exact Or.inl rfl | exact Or.inr ⟨rfl, rfl⟩

/-- C27: in every state a newly constructed controller reaches through its
public member functions, a non-empty fade target implies
`blendDuration > 0`; so the code's fade test (fade target non-empty and
`blendDuration > 0`) holds exactly when the fade target is non-empty, and
`blendDuration`, the divisor of `blendTime / blendDuration` in
`GetBoneTransforms`, is not zero when that test holds. -/
theorem fade_target_has_positive_duration (c : AnimationController) (hreach : ReachablePublic c) :
    (c.nextClipName ≠ "" → c.blendDuration > 0)
      ∧ ((c.nextClipName ≠ "" ∧ c.blendDuration > 0) ↔ c.nextClipName ≠ "")
      ∧ (c.nextClipName ≠ "" ∧ c.blendDuration > 0 → c.blendDuration ≠ 0) := by
  have key : c.nextClipName ≠ "" → c.blendDuration > 0 := by
    induction hreach with
    | init => intro h; exact absurd rfl h
    | setSkeleton bones _ ih => exact ih
    | addClip name clip _ ih => exact ih
    | removeClip name _ ih => exact ih
    | @play c clipName fadeTime _ ih =>
      unfold Play
      by_cases h1 : ¬ HasClip c clipName = true
      · rw [if_pos h1]; exact ih
      · rw [if_neg h1]
        by_cases h2 : fadeTime > 0 ∧ c.state = AnimationState.Playing
        · rw [if_pos h2]; intro _; exact h2.1
        · rw [if_neg h2]; intro h; exact absurd rfl h
    | @crossFade c clipName fadeTime _ ih =>
      unfold CrossFade Play
      by_cases h1 : ¬ HasClip c clipName = true
      · rw [if_pos h1]; exact ih
      · rw [if_neg h1]
        by_cases h2 : fadeTime > 0 ∧ c.state = AnimationState.Playing
        · rw [if_pos h2]; intro _; exact h2.1
        · rw [if_neg h2]; intro h; exact absurd rfl h
    | stop _ ih => exact ih
    | @pause c _ ih =>
      unfold Pause
      split_ifs
      · exact ih
      · exact ih
    | @resume c _ ih =>
      unfold Resume
      split_ifs
      · exact ih
      · exact ih
    | @update c deltaTime _ ih =>
      rcases Update_fade_target c deltaTime with h | ⟨h1, h2⟩
      · intro hne; exact absurd h hne
      · rw [h1, h2]; exact ih
    | setSpeed speed _ ih => exact ih
    | setLooping loop _ ih => exact ih
    | enableStateMachine enable _ ih => exact ih
    | enableBlendTree enable _ ih => exact ih
    | addEvent clipName time eventName _ ih => exact ih
    | setEventCallback callback _ ih => exact ih
    | getStateMachine sm _ ih => exact ih
    | getBlendTree tree _ ih => exact ih
  exact ⟨key, ⟨fun h => h.1, fun h => ⟨h, key h⟩⟩, fun h => ne_of_gt h.2⟩

/-- The controller `fading` is reached through public member functions. -/
theorem fading_reachable : ReachablePublic fading :=
  ReachablePublic.play "B" (1 / 2)
    (ReachablePublic.play "A" 0
      (ReachablePublic.addClip "B" stutter
        (ReachablePublic.addClip "A" slide
          (ReachablePublic.setSkeleton [rootBone] ReachablePublic.init))))

/-- C27 at a concrete input: the cross-fading controller `fading`. -/
theorem fade_target_has_positive_duration_witness :
    (fading.nextClipName ≠ "" → fading.blendDuration > 0)
      ∧ ((fading.nextClipName ≠ "" ∧ fading.blendDuration > 0) ↔ fading.nextClipName ≠ "")
      ∧ (fading.nextClipName ≠ "" ∧ fading.blendDuration > 0 → fading.blendDuration ≠ 0) :=
  fade_target_has_positive_duration fading fading_reachable

/-! ## Clip lookups in `GetBoneTransforms` and `GetCurrentTransform` -/

/-- With the current clip set and in the library and the fade test true,
`GetBoneTransforms` (for a non-empty skeleton) and `GetCurrentTransform` call
`clips.at(nextClipName)`, which throws when the fade target is not in the
library. -/
theorem at_throws_of_missing_fade_target (m : Libm)
    (keyframesOf : AnimationClip → List AnimationKeyframe) (c : AnimationController)
    (out : BoneTransforms) (cur : AnimationClip)
    (hset : c.currentClipName ≠ "") (hcur : c.clips.lookup c.currentClipName = some cur)
    (hfade : c.nextClipName ≠ "" ∧ c.blendDuration > 0)
    (hmissing : c.clips.lookup c.nextClipName = none) :
    (c.skeleton ≠ [] → GetBoneTransforms m c out = none)
      ∧ GetCurrentTransform m keyframesOf c = none := by
  have hhas : ¬ (c.currentClipName = "" ∨ ¬ HasClip c c.currentClipName = true) := by
    simp [HasClip, hcur, hset]
  constructor
  · intro hskel
    have hne : ¬ c.skeleton.isEmpty = true := by simpa [List.isEmpty_iff] using hskel
    unfold GetBoneTransforms
    rw [if_neg hne]
    dsimp only []
    rw [if_neg hhas]
    simp only [hcur, hmissing, if_pos hfade]
  · unfold GetCurrentTransform
    rw [if_neg hhas]
    simp only [hcur, hmissing, if_pos hfade]

/-- C26, evaluated on the code: the controller `fading` (skeleton of one bone,
`AddClip("A")`, `AddClip("B")`, `Play("A")`, `Play("B", 1/2)`) after
`RemoveClip("B")` is reached through public member functions, its fade target
"B" is not in the library, and both `GetBoneTransforms` and
`GetCurrentTransform` end in the exception of `clips.at`; after
`RemoveClip("A")` instead, the current clip is missing and both return a
pose. -/
theorem lookup_of_removed_fade_target_throws (m : Libm)
    (keyframesOf : AnimationClip → List AnimationKeyframe) :
    ReachablePublic (RemoveClip fading "B")
      ∧ (RemoveClip fading "B").nextClipName = "B"
      ∧ HasClip (RemoveClip fading "B") "B" = false
      ∧ GetBoneTransforms m (RemoveClip fading "B") ⟨[], [], []⟩ = none
      ∧ GetCurrentTransform m keyframesOf (RemoveClip fading "B") = none
      ∧ GetBoneTransforms m (RemoveClip fading "A") ⟨[], [], []⟩
          = some ⟨[rootBone.position], [rootBone.rotation], [rootBone.scale]⟩
      ∧ GetCurrentTransform m keyframesOf (RemoveClip fading "A")
          = some (Vector3.Zero, Quaternion.Identity, Vector3.One) := by
  have h := at_throws_of_missing_fade_target m keyframesOf (RemoveClip fading "B") ⟨[], [], []⟩
    slide (by with_unfolding_all decide) (by with_unfolding_all decide)
    (by with_unfolding_all decide) (by with_unfolding_all decide)
  refine ⟨ReachablePublic.removeClip "B" fading_reachable, by with_unfolding_all decide,
    by with_unfolding_all decide, h.1 (by with_unfolding_all decide), h.2, ?_, ?_⟩
  · with_unfolding_all rfl
  · with_unfolding_all rfl

end AnimationController

namespace BlendTree

open Examples

/-! ## The blend tree -/

theorem Max_zero_eq_max (v : ℚ) : Math.Max 0 v = max 0 v := by
  unfold Math.Max
  split_ifs with h
  · exact (max_eq_right (le_of_lt h)).symm
  · exact (max_eq_left (not_lt.mp h)).symm

theorem rawWeight_eq_max (m : Libm) (x y : ℚ) (node : BlendNode) :
    rawWeight m ⟨x, y⟩ node
      = max 0 (1 - m.sqrt ((x - node.position.x) * (x - node.position.x)
          + (y - node.position.y) * (y - node.position.y))) := by
  unfold rawWeight
  exact Max_zero_eq_max _

theorem rawWeight_nonneg (m : Libm) (blendParameter : Vector2) (node : BlendNode) :
    0 ≤ rawWeight m blendParameter node := by
  unfold rawWeight
  dsimp only []
  rw [Max_zero_eq_max]
  exact le_max_left _ _

/-- The first loop of `CalculateWeights` gives every node its raw weight and
adds the raw weights to the running total. -/
theorem weighLoop_eq (m : Libm) (blendParameter : Vector2) (nodes : List BlendNode)
    (totalWeight : ℚ) :
    weighLoop m blendParameter nodes totalWeight
      = (nodes.map (fun node => { node with weight := rawWeight m blendParameter node }),
          totalWeight + (nodes.map (rawWeight m blendParameter)).sum) := by
  induction nodes generalizing totalWeight with
  | nil => simp [weighLoop]
  | cons node rest ih =>
    simp only [weighLoop, ih, List.map_cons, List.sum_cons]
    rw [add_assoc]

/-- The nodes after `SetBlendParameter(x, y)`. -/
theorem SetBlendParameter_eq (m : Libm) (tree : BlendTree) (x y : ℚ) :
    SetBlendParameter m tree x y
      = { nodes :=
            if 0 < (tree.nodes.map (rawWeight m ⟨x, y⟩)).sum then
              tree.nodes.map (fun node =>
                { node with
                  weight := rawWeight m ⟨x, y⟩ node / (tree.nodes.map (rawWeight m ⟨x, y⟩)).sum })
            else tree.nodes.map (fun node => { node with weight := rawWeight m ⟨x, y⟩ node })
          blendParameter := ⟨x, y⟩ } := by
  unfold SetBlendParameter CalculateWeights
  simp only [weighLoop_eq, zero_add, gt_iff_lt]
  split_ifs
  · simp [List.map_map, Function.comp_def]
  · rfl

/-- C23: for every list of nodes and every blend parameter `(x, y)`, with
`raw_i = max(0, 1 - dist_i)` and `dist_i = sqrt(dx * dx + dy * dy)`: when the
sum of the `raw_j` is positive, after `SetBlendParameter(x, y)` the weight of
node `i` is `raw_i` divided by that sum and the weights sum to 1; otherwise
the sum is 0, which is the case exactly when every node has `dist_i ≥ 1` (or
there is no node), and every weight is 0.  Names and positions are as
before.  This holds whatever `sqrt` returns. -/
theorem SetBlendParameter_normalises (m : Libm) (tree : BlendTree) (x y : ℚ) :
    (∀ node : BlendNode, rawWeight m ⟨x, y⟩ node
        = max 0 (1 - m.sqrt ((x - node.position.x) * (x - node.position.x)
            + (y - node.position.y) * (y - node.position.y))))
      ∧ (0 < (tree.nodes.map (rawWeight m ⟨x, y⟩)).sum →
          (SetBlendParameter m tree x y).nodes
              = tree.nodes.map (fun node =>
                  { node with
                    weight :=
                      rawWeight m ⟨x, y⟩ node / (tree.nodes.map (rawWeight m ⟨x, y⟩)).sum })
            ∧ ((SetBlendParameter m tree x y).nodes.map (fun node => node.weight)).sum = 1)
      ∧ (¬ 0 < (tree.nodes.map (rawWeight m ⟨x, y⟩)).sum →
          (tree.nodes.map (rawWeight m ⟨x, y⟩)).sum = 0
            ∧ (SetBlendParameter m tree x y).nodes
              = tree.nodes.map (fun node => { node with weight := 0 }))
      ∧ ((tree.nodes.map (rawWeight m ⟨x, y⟩)).sum = 0 ↔
          ∀ node ∈ tree.nodes,
            1 ≤ m.sqrt ((x - node.position.x) * (x - node.position.x)
              + (y - node.position.y) * (y - node.position.y))) := by
  have hnonneg : ∀ w ∈ tree.nodes.map (rawWeight m ⟨x, y⟩), (0 : ℚ) ≤ w := by
    intro w hw
    obtain ⟨node, _, rfl⟩ := List.mem_map.mp hw
    exact rawWeight_nonneg m _ node
  have hsum0 : 0 ≤ (tree.nodes.map (rawWeight m ⟨x, y⟩)).sum := List.sum_nonneg hnonneg
  have hzero : (tree.nodes.map (rawWeight m ⟨x, y⟩)).sum = 0 →
      ∀ node ∈ tree.nodes, rawWeight m ⟨x, y⟩ node = 0 := by
    intro h node hnode
    exact List.all_zero_of_le_zero_le_of_sum_eq_zero hnonneg h
      (List.mem_map.mpr ⟨node, hnode, rfl⟩)
  refine ⟨rawWeight_eq_max m x y, ?_, ?_, ?_⟩
  · intro hpos
    have hnodes : (SetBlendParameter m tree x y).nodes
        = tree.nodes.map (fun node =>
            { node with
              weight :=
                rawWeight m ⟨x, y⟩ node / (tree.nodes.map (rawWeight m ⟨x, y⟩)).sum }) := by
      rw [SetBlendParameter_eq, if_pos hpos]
    refine ⟨hnodes, ?_⟩
    rw [hnodes, List.map_map]
    have hdiv : ((fun node : BlendNode => node.weight) ∘ fun node : BlendNode =>
        { node with
          weight := rawWeight m ⟨x, y⟩ node / (tree.nodes.map (rawWeight m ⟨x, y⟩)).sum })
        = fun node => rawWeight m ⟨x, y⟩ node * ((tree.nodes.map (rawWeight m ⟨x, y⟩)).sum)⁻¹ := by
      funext node
      simp [div_eq_mul_inv]
    rw [hdiv, List.sum_map_mul_right]
    exact mul_inv_cancel₀ (ne_of_gt hpos)
  · intro hnpos
    have hz : (tree.nodes.map (rawWeight m ⟨x, y⟩)).sum = 0 :=
      le_antisymm (not_lt.mp hnpos) hsum0
    refine ⟨hz, ?_⟩
    rw [SetBlendParameter_eq, if_neg hnpos]
    apply List.map_congr_left
    intro node hnode
    rw [hzero hz node hnode]
  · constructor
    · intro hz node hnode
      have h0 := hzero hz node hnode
      rw [rawWeight_eq_max] at h0
      have := le_max_right 0 (1 - m.sqrt ((x - node.position.x) * (x - node.position.x)
        + (y - node.position.y) * (y - node.position.y)))
      rw [h0] at this
      linarith
    · intro hfar
      have hall : ∀ w ∈ tree.nodes.map (rawWeight m ⟨x, y⟩), w = (0 : ℚ) := by
        intro w hw
        obtain ⟨node, hnode, rfl⟩ := List.mem_map.mp hw
        rw [rawWeight_eq_max]
        exact max_eq_left (by linarith [hfar node hnode])
      rw [List.eq_replicate_iff.mpr ⟨rfl, hall⟩]
      simp

/-- C23 at a concrete input: nodes at `(0, 0)` and `(1/2, 0)` and the blend
parameter `(0, 0)`; the raw weights `1/2` and `3/8` become `4/7` and `3/7`. -/
theorem SetBlendParameter_normalises_witness :
    (SetBlendParameter Libm.approx ⟨[nodeAt "idle" 0 0 0, nodeAt "walk" (1 / 2) 0 0], ⟨0, 0⟩⟩
        0 0).nodes
        = [nodeAt "idle" 0 0 (4 / 7), nodeAt "walk" (1 / 2) 0 (3 / 7)]
      ∧ ((SetBlendParameter Libm.approx
          ⟨[nodeAt "idle" 0 0 0, nodeAt "walk" (1 / 2) 0 0], ⟨0, 0⟩⟩ 0 0).nodes.map
            (fun node => node.weight)).sum = 1 := by
  have hpos : 0 < (([nodeAt "idle" 0 0 0, nodeAt "walk" (1 / 2) 0 0] : List BlendNode).map
      (rawWeight Libm.approx ⟨0, 0⟩)).sum := by with_unfolding_all decide
  have h := (SetBlendParameter_normalises Libm.approx
    ⟨[nodeAt "idle" 0 0 0, nodeAt "walk" (1 / 2) 0 0], ⟨0, 0⟩⟩ 0 0).2.1 hpos
  refine ⟨?_, h.2⟩
  with_unfolding_all decide

/-- A node of the tree after `SetBlendParameter(x, y)` carries its raw weight
divided by a positive number, or its raw weight. -/
theorem weight_of_mem_SetBlendParameter (m : Libm) (tree : BlendTree) (x y : ℚ)
    (a : BlendNode) (ha : a ∈ (SetBlendParameter m tree x y).nodes) :
    (0 < (tree.nodes.map (rawWeight m ⟨x, y⟩)).sum
        ∧ a.weight = rawWeight m ⟨x, y⟩ a / (tree.nodes.map (rawWeight m ⟨x, y⟩)).sum
        ∧ rawWeight m ⟨x, y⟩ a ≤ (tree.nodes.map (rawWeight m ⟨x, y⟩)).sum)
      ∨ (¬ 0 < (tree.nodes.map (rawWeight m ⟨x, y⟩)).sum
        ∧ a.weight = rawWeight m ⟨x, y⟩ a) := by
  have hnonneg : ∀ w ∈ tree.nodes.map (rawWeight m ⟨x, y⟩), (0 : ℚ) ≤ w := by
    intro w hw
    obtain ⟨node, _, rfl⟩ := List.mem_map.mp hw
    exact rawWeight_nonneg m _ node
  rw [SetBlendParameter_eq] at ha
  by_cases hpos : 0 < (tree.nodes.map (rawWeight m ⟨x, y⟩)).sum
  · simp only [if_pos hpos] at ha
    obtain ⟨node, hnode, rfl⟩ := List.mem_map.mp ha
    exact Or.inl ⟨hpos, rfl,
      List.single_le_sum hnonneg _ (List.mem_map.mpr ⟨node, hnode, rfl⟩)⟩
  · simp only [if_neg hpos] at ha
    obtain ⟨node, _, rfl⟩ := List.mem_map.mp ha
    exact Or.inr ⟨hpos, rfl⟩

/-- C24: after `SetBlendParameter(x, y)`, for any two nodes `a` and `b` of the
tree, if `a` is no farther from `(x, y)` than `b` (compared by the squared
distances) then `weight_a ≥ weight_b`; in particular a node located at
`(x, y)` has a weight no other node exceeds.  `sqrt` is assumed monotone on
the non-negative numbers. -/
theorem SetBlendParameter_weights_monotone (m : Libm)
    (hmono : ∀ u v : ℚ, 0 ≤ u → u ≤ v → m.sqrt u ≤ m.sqrt v)
    (tree : BlendTree) (x y : ℚ) (a b : BlendNode)
    (ha : a ∈ (SetBlendParameter m tree x y).nodes)
    (hb : b ∈ (SetBlendParameter m tree x y).nodes) :
    ((x - a.position.x) * (x - a.position.x) + (y - a.position.y) * (y - a.position.y)
        ≤ (x - b.position.x) * (x - b.position.x) + (y - b.position.y) * (y - b.position.y) →
        b.weight ≤ a.weight)
      ∧ (a.position = ⟨x, y⟩ → b.weight ≤ a.weight) := by
  have hmain : (x - a.position.x) * (x - a.position.x)
      + (y - a.position.y) * (y - a.position.y)
      ≤ (x - b.position.x) * (x - b.position.x) + (y - b.position.y) * (y - b.position.y) →
      b.weight ≤ a.weight := by
    intro hnear
    have hsq : 0 ≤ (x - a.position.x) * (x - a.position.x)
        + (y - a.position.y) * (y - a.position.y) :=
      add_nonneg (mul_self_nonneg _) (mul_self_nonneg _)
    have hraw : rawWeight m ⟨x, y⟩ b ≤ rawWeight m ⟨x, y⟩ a := by
      rw [rawWeight_eq_max, rawWeight_eq_max]
      exact max_le_max (le_refl _) (by linarith [hmono _ _ hsq hnear])
    rcases weight_of_mem_SetBlendParameter m tree x y a ha with ⟨hpos, ea, _⟩ | ⟨hnpos, ea⟩
    · rcases weight_of_mem_SetBlendParameter m tree x y b hb with ⟨_, eb, _⟩ | ⟨hnpos, _⟩
      · rw [ea, eb]
        exact div_le_div_of_nonneg_right hraw (le_of_lt hpos)
      · exact absurd hpos hnpos
    · rcases weight_of_mem_SetBlendParameter m tree x y b hb with ⟨hpos, _, _⟩ | ⟨_, eb⟩
      · exact absurd hpos hnpos
      · rw [ea, eb]
        exact hraw
  refine ⟨hmain, fun hat => hmain ?_⟩
  rw [hat]
  simp only [sub_self, mul_zero, add_zero]
  exact add_nonneg (mul_self_nonneg _) (mul_self_nonneg _)

/-- C24, the stated instance: nodes at `(0, 0)`, `(1, 0)` and `(0, 1)` and
`SetBlendParameter(0, 0)`: the weights sum to 1 and no node has a greater
weight than the node at `(0, 0)`. -/
theorem SetBlendParameter_weights_monotone_witness :
    ((SetBlendParameter Libm.approx (run Libm.approx threeNodes) 0 0).nodes.map
        (fun node => node.weight)).sum = 1
      ∧ ∀ b ∈ (SetBlendParameter Libm.approx (run Libm.approx threeNodes) 0 0).nodes,
          b.weight ≤ (nodeAt "idle" 0 0 1).weight := by
  refine ⟨by with_unfolding_all decide, fun b hb => ?_⟩
  exact (SetBlendParameter_weights_monotone Libm.approx
    (by
      intro u v _ huv
      simp only [Libm.approx]
      linarith)
    (run Libm.approx threeNodes) 0 0 (nodeAt "idle" 0 0 1) b (by with_unfolding_all decide)
    hb).2 rfl

/-- C25, counterexamples to the claim as stated: a newly constructed blend
tree after `AddNode` of a node whose `weight` member is 5 reports the weight
5, which is not in `[0, 1]`, and reports nothing when the `weight` member is
0 instead; it is the same when a `SetBlendParameter` call comes before the
`AddNode` call. -/
theorem GetActiveClips_counterexample :
    GetActiveClips (run Libm.approx [BlendTreeCall.addNode (nodeAt "walk" 0 0 5)])
        = [("walk", 5)]
      ∧ GetActiveClips (run Libm.approx [BlendTreeCall.addNode (nodeAt "walk" 0 0 0)]) = []
      ∧ GetActiveClips (run Libm.approx
          [BlendTreeCall.setBlendParameter 0 0, BlendTreeCall.addNode (nodeAt "walk" 0 0 5)])
        = [("walk", 5)]
      ∧ ¬ ((5 : ℚ) ≤ 1) := by
  refine ⟨?_, ?_, ?_, ?_⟩ <;> with_unfolding_all decide

/-- Two runs of calls that differ in the `weight` members passed to `AddNode`
only lead to trees whose nodes differ in their weights only. -/
theorem foldl_call_congr (m : Libm) (calls1 calls2 : List BlendTreeCall) (t1 t2 : BlendTree)
    (hsame : calls1.map BlendTreeCall.withoutWeight = calls2.map BlendTreeCall.withoutWeight)
    (hnodes : t1.nodes.map (fun node => { node with weight := 0 })
      = t2.nodes.map (fun node => { node with weight := 0 })) :
    (calls1.foldl (call m) t1).nodes.map (fun node => { node with weight := 0 })
      = (calls2.foldl (call m) t2).nodes.map (fun node => { node with weight := 0 }) := by
  induction calls1 generalizing calls2 t1 t2 with
  | nil =>
    cases calls2 with
    | nil => exact hnodes
    | cons c2 rest2 => simp at hsame
  | cons c1 rest1 ih =>
    cases calls2 with
    | nil => simp at hsame
    | cons c2 rest2 =>
      simp only [List.map_cons, List.cons.injEq] at hsame
      obtain ⟨hhead, htail⟩ := hsame
      rw [List.foldl_cons, List.foldl_cons]
      apply ih rest2 _ _ htail
      cases c1 with
      | addNode n1 =>
        cases c2 with
        | addNode n2 =>
          simp only [BlendTreeCall.withoutWeight, BlendTreeCall.addNode.injEq] at hhead
          simp only [call, AddNode, List.map_append, hnodes, List.map_cons, List.map_nil, hhead]
        | setBlendParameter x2 y2 => simp [BlendTreeCall.withoutWeight] at hhead
      | setBlendParameter x1 y1 =>
        cases c2 with
        | addNode n2 => simp [BlendTreeCall.withoutWeight] at hhead
        | setBlendParameter x2 y2 =>
          simp only [BlendTreeCall.withoutWeight, BlendTreeCall.setBlendParameter.injEq] at hhead
          obtain ⟨rfl, rfl⟩ := hhead
          have hraw : t1.nodes.map (rawWeight m ⟨x1, y1⟩) = t2.nodes.map (rawWeight m ⟨x1, y1⟩) := by
            have := congrArg (List.map (rawWeight m ⟨x1, y1⟩)) hnodes
            simpa [List.map_map, Function.comp_def, rawWeight] using this
          simp only [call, SetBlendParameter_eq, hraw]
          split_ifs <;> simpa [List.map_map, Function.comp_def] using hnodes

/-- `SetBlendParameter` overwrites the weight of every node: trees whose nodes
differ in their weights only get the same nodes. -/
theorem SetBlendParameter_congr (m : Libm) (t1 t2 : BlendTree) (x y : ℚ)
    (hnodes : t1.nodes.map (fun node => { node with weight := 0 })
      = t2.nodes.map (fun node => { node with weight := 0 })) :
    SetBlendParameter m t1 x y = SetBlendParameter m t2 x y := by
  have hraw : t1.nodes.map (rawWeight m ⟨x, y⟩) = t2.nodes.map (rawWeight m ⟨x, y⟩) := by
    have := congrArg (List.map (rawWeight m ⟨x, y⟩)) hnodes
    simpa [List.map_map, Function.comp_def, rawWeight] using this
  have hdiv : ∀ d : ℚ, t1.nodes.map (fun node => { node with weight := rawWeight m ⟨x, y⟩ node / d })
      = t2.nodes.map (fun node => { node with weight := rawWeight m ⟨x, y⟩ node / d }) := by
    intro d
    have := congrArg (List.map (fun node : BlendNode =>
      { node with weight := rawWeight m ⟨x, y⟩ node / d })) hnodes
    simpa [List.map_map, Function.comp_def, rawWeight] using this
  have hplain : t1.nodes.map (fun node => { node with weight := rawWeight m ⟨x, y⟩ node })
      = t2.nodes.map (fun node => { node with weight := rawWeight m ⟨x, y⟩ node }) := by
    have := congrArg (List.map (fun node : BlendNode =>
      { node with weight := rawWeight m ⟨x, y⟩ node })) hnodes
    simpa [List.map_map, Function.comp_def, rawWeight] using this
  rw [SetBlendParameter_eq, SetBlendParameter_eq, hraw, hdiv, hplain]

/-- C25, amended: for every sequence of `AddNode` and `SetBlendParameter` calls
on a newly constructed blend tree that ends with a `SetBlendParameter` call,
every weight `GetActiveClips` reports lies in `[0, 1]`, and the list it
reports is the same for a sequence that differs in the `weight` members of
the nodes passed to `AddNode` only.  This holds whatever `sqrt` returns. -/
theorem GetActiveClips_after_SetBlendParameter (m : Libm) (calls1 calls2 : List BlendTreeCall)
    (x y : ℚ)
    (hsame : calls1.map BlendTreeCall.withoutWeight
      = calls2.map BlendTreeCall.withoutWeight) :
    (∀ p ∈ GetActiveClips (run m (calls1 ++ [BlendTreeCall.setBlendParameter x y])),
        0 ≤ p.2 ∧ p.2 ≤ 1)
      ∧ GetActiveClips (run m (calls1 ++ [BlendTreeCall.setBlendParameter x y]))
        = GetActiveClips (run m (calls2 ++ [BlendTreeCall.setBlendParameter x y])) := by
  have hrun : ∀ calls : List BlendTreeCall,
      run m (calls ++ [BlendTreeCall.setBlendParameter x y])
        = SetBlendParameter m (run m calls) x y := by
    intro calls
    unfold run
    rw [List.foldl_append]
    rfl
  constructor
  · intro p hp
    rw [hrun] at hp
    unfold GetActiveClips at hp
    obtain ⟨node, hnode, rfl⟩ := List.mem_map.mp hp
    have hmem := (List.mem_filter.mp hnode).1
    have hraw := rawWeight_nonneg m ⟨x, y⟩ node
    rcases weight_of_mem_SetBlendParameter m (run m calls1) x y node hmem with
      ⟨hpos, e, hle⟩ | ⟨hnpos, e⟩
    · simp only [e]
      exact ⟨div_nonneg hraw (le_of_lt hpos), (div_le_one hpos).mpr hle⟩
    · have hnonneg : ∀ w ∈ (run m calls1).nodes.map (rawWeight m ⟨x, y⟩), (0 : ℚ) ≤ w := by
        intro w hw
        obtain ⟨n, _, rfl⟩ := List.mem_map.mp hw
        exact rawWeight_nonneg m _ n
      rw [SetBlendParameter_eq, if_neg hnpos] at hmem
      obtain ⟨n0, hn0, rfl⟩ := List.mem_map.mp hmem
      have hle : rawWeight m ⟨x, y⟩ n0 ≤ ((run m calls1).nodes.map (rawWeight m ⟨x, y⟩)).sum :=
        List.single_le_sum hnonneg _ (List.mem_map.mpr ⟨n0, hn0, rfl⟩)
      have h0 : rawWeight m ⟨x, y⟩ n0 ≤ 0 := le_trans hle (not_lt.mp hnpos)
      exact ⟨rawWeight_nonneg m _ n0, le_trans h0 zero_le_one⟩
  · rw [hrun, hrun]
    have hnodes := foldl_call_congr m calls1 calls2 new new hsame rfl
    have : SetBlendParameter m (run m calls1) x y = SetBlendParameter m (run m calls2) x y :=
      SetBlendParameter_congr m _ _ x y hnodes
    rw [this]

/-- C25, amended, at a concrete input: the three nodes at `(0, 0)`, `(1, 0)`
and `(0, 1)`, added with `weight` members 0 in one run and 5 in the other,
then `SetBlendParameter(1/4, 1/4)`. -/
theorem GetActiveClips_after_SetBlendParameter_witness :
    (∀ p ∈ GetActiveClips (run Libm.approx
        (threeNodes ++ [BlendTreeCall.setBlendParameter (1 / 4) (1 / 4)])), 0 ≤ p.2 ∧ p.2 ≤ 1)
      ∧ GetActiveClips (run Libm.approx
          (threeNodes ++ [BlendTreeCall.setBlendParameter (1 / 4) (1 / 4)]))
        = GetActiveClips (run Libm.approx
          ([BlendTreeCall.addNode (nodeAt "idle" 0 0 5),
              BlendTreeCall.addNode (nodeAt "walk" 1 0 5),
              BlendTreeCall.addNode (nodeAt "strafe" 0 1 5)]
            ++ [BlendTreeCall.setBlendParameter (1 / 4) (1 / 4)])) :=
  GetActiveClips_after_SetBlendParameter Libm.approx threeNodes
    [BlendTreeCall.addNode (nodeAt "idle" 0 0 5), BlendTreeCall.addNode (nodeAt "walk" 1 0 5),
      BlendTreeCall.addNode (nodeAt "strafe" 0 1 5)]
    (1 / 4) (1 / 4) (by with_unfolding_all decide)

end BlendTree

end YUGA
